import Mathlib

/-!
Bilinear interpolation: kernel, resize strategies, benchmark selection.

A shallow embedding of

* the bilinear resampling library: `BilinearInterpolation::interpolate`,
  `resize_serial`, `resize_openmp`, `resizeThreadTile`, `resize_threading` and
  the method selection of `benchmark` (namespace `interpolation`);
* the single-file program: `clamp`, `Image`, `bilinearInterpolate`
  (namespace `singlefile`);
* the console demo: `Image`, `bilinearInterpolate` (namespace `console`).
* the demo program: `Image`, `BilinearDemo::interpolate` and the three resize
  functions of `BilinearDemo`, with their progress output (namespace `demo`).

Conventions of the embedding:

* `float` values are exact rationals (`ℚ`); the literal `1.001f` is `1001/1000`.
* `int` values are `Int`; integer division of two `int`s is `Int.tdiv`
  (truncation toward zero, as in C++).
* a loop `for (int k = lo; k < hi; k++)` is `forLoop lo hi body`, which threads
  the mutated state through the iterations in increasing order of `k`.
* the collapsed parallel loop of `resize_openmp` is run in row-major order and
  the worker threads of `resize_threading` are run one after the other, in the
  order in which they are created.
-/

namespace interpolation

/-- The C loop `for (int k = lo; k < hi; k++) s = body k s`: the body is run for
`k = lo, lo+1, ..., hi-1` in this order (not at all when `hi ≤ lo`). -/
def forLoop {σ : Type} (lo hi : Int) (body : Int → σ → σ) (s : σ) : σ :=
  (List.range (hi - lo).toNat).foldl (fun (acc : σ) (k : Nat) => body (lo + (k : Int)) acc) s

/-- Modelled from the spec: the `Pixel` struct of `image.h`, which is not among
the sources. A sample is an ordered tuple of independent scalar channels; the
library reads the four channels `r`, `g`, `b`, `a`. -/
structure Pixel where
  r : ℚ
  g : ℚ
  b : ℚ
  a : ℚ
deriving DecidableEq

/-- Modelled from the spec: the default sample `Pixel()` of `image.h`; the demo
program declares `Pixel(float r = 0, float g = 0, float b = 0, float a = 255)`. -/
def Pixel.default : Pixel := ⟨0, 0, 0, 255⟩

/-- Modelled from the spec: the `Image` class of `image.h`, which is not among
the sources. A grid has a width, a height and a single contiguous buffer
addressed by `index = row * width + column`. -/
structure Image where
  height : Int
  width : Int
  data : List Pixel
deriving DecidableEq

/-- Modelled from the spec: the constructor `Image(h, w)`, which allocates
`w * h` default samples. -/
def Image.new (h w : Int) : Image :=
  { height := h, width := w, data := List.replicate (w * h).toNat Pixel.default }

/-- Modelled from the spec: `Image::getWidth`. -/
def Image.getWidth (img : Image) : Int := img.width

/-- Modelled from the spec: `Image::getHeight`. -/
def Image.getHeight (img : Image) : Int := img.height

/-- The coordinate `(x, y)` names a cell of the grid. -/
def Image.inBounds (img : Image) (x y : Int) : Prop :=
  0 ≤ x ∧ x < img.width ∧ 0 ≤ y ∧ y < img.height

instance (img : Image) (x y : Int) : Decidable (img.inBounds x y) := by
  unfold Image.inBounds; infer_instance

/-- Modelled from the spec: the buffer position of cell `(x, y)`,
`index = row * width + column`. -/
def Image.index (img : Image) (x y : Int) : Nat := (y * img.width + x).toNat

/-- Modelled from the spec: `Image::getPixel(x, y)`, the bounds-checked read
accessor. Outside the grid it yields the default sample (as the demo program's
`Image::getPixel` does). -/
def Image.getPixel (img : Image) (x y : Int) : Pixel :=
  if img.inBounds x y then img.data.getD (img.index x y) Pixel.default else Pixel.default

/-- Modelled from the spec: `Image::setPixel(x, y, p)`, the bounds-checked write
accessor. Outside the grid it leaves the image as it is (as the demo program's
`Image::setPixel` does). -/
def Image.setPixel (img : Image) (x y : Int) (p : Pixel) : Image :=
  if img.inBounds x y then { img with data := img.data.set (img.index x y) p } else img

/-- The buffer of the image holds exactly `width * height` samples. -/
def Image.WellFormed (img : Image) : Prop :=
  0 ≤ img.width ∧ 0 ≤ img.height ∧ img.data.length = (img.width * img.height).toNat

/-- The four neighbour indices and the two fractional offsets of the kernel. -/
structure Taps where
  x0 : Int
  y0 : Int
  x1 : Int
  y1 : Int
  fx : ℚ
  fy : ℚ
deriving DecidableEq

/-- The four kernel weights. -/
structure Weights where
  w00 : ℚ
  w10 : ℚ
  w01 : ℚ
  w11 : ℚ
deriving DecidableEq

/-- The clamp of one coordinate in `BilinearInterpolation::interpolate`:
`max(0.0f, min(v, (float)dim - 1.001f))`. -/
def BilinearInterpolation.clampCoord (v : ℚ) (dim : Int) : ℚ :=
  max 0 (min v ((dim : ℚ) - 1001 / 1000))

/-- The first half of `BilinearInterpolation::interpolate`: clamp, integer
coordinates and fractional parts. -/
def BilinearInterpolation.taps (image : Image) (x y : ℚ) : Taps :=
  let x := BilinearInterpolation.clampCoord x image.getWidth
  let y := BilinearInterpolation.clampCoord y image.getHeight
  let x0 : Int := ⌊x⌋
  let y0 : Int := ⌊y⌋
  let x1 : Int := min (x0 + 1) (image.getWidth - 1)
  let y1 : Int := min (y0 + 1) (image.getHeight - 1)
  let fx : ℚ := x - (⌊x⌋ : Int)
  let fy : ℚ := y - (⌊y⌋ : Int)
  { x0 := x0, y0 := y0, x1 := x1, y1 := y1, fx := fx, fy := fy }

/-- The weights computed by every kernel of the repository:
`w00 = (1-fx)(1-fy)`, `w10 = fx(1-fy)`, `w01 = (1-fx)fy`, `w11 = fx*fy`. -/
def weights (fx fy : ℚ) : Weights :=
  { w00 := (1 - fx) * (1 - fy)
    w10 := fx * (1 - fy)
    w01 := (1 - fx) * fy
    w11 := fx * fy }

/-- The weighted sum of one channel: `f00*w00 + f10*w10 + f01*w01 + f11*w11`. -/
def weightedSum (w : Weights) (f00 f10 f01 f11 : ℚ) : ℚ :=
  f00 * w.w00 + f10 * w.w10 + f01 * w.w01 + f11 * w.w11

/-- The second half of every library kernel: read the four neighbours, compute
the weights and form the weighted sum of each of the four channels. -/
def blend (image : Image) (t : Taps) : Pixel :=
  let f00 := image.getPixel t.x0 t.y0
  let f10 := image.getPixel t.x1 t.y0
  let f01 := image.getPixel t.x0 t.y1
  let f11 := image.getPixel t.x1 t.y1
  let w := weights t.fx t.fy
  { r := weightedSum w f00.r f10.r f01.r f11.r
    g := weightedSum w f00.g f10.g f01.g f11.g
    b := weightedSum w f00.b f10.b f01.b f11.b
    a := weightedSum w f00.a f10.a f01.a f11.a }

/-- `BilinearInterpolation::interpolate(image, x, y)`. -/
def BilinearInterpolation.interpolate (image : Image) (x y : ℚ) : Pixel :=
  blend image (BilinearInterpolation.taps image x y)

/-- `BilinearInterpolation::resize_serial(src, new_height, new_width)`. -/
def BilinearInterpolation.resize_serial (src : Image) (new_height new_width : Int) : Image :=
  let dst := Image.new new_height new_width
  let scale_y : ℚ := (src.getHeight : ℚ) / (new_height : ℚ)
  let scale_x : ℚ := (src.getWidth : ℚ) / (new_width : ℚ)
  forLoop 0 new_height (fun j dst =>
    forLoop 0 new_width (fun i dst =>
      let src_x : ℚ := (i : ℚ) * scale_x
      let src_y : ℚ := (j : ℚ) * scale_y
      let pixel := BilinearInterpolation.interpolate src src_x src_y
      dst.setPixel i j pixel) dst) dst

/-- The index computation inlined in `resize_openmp` and `resizeThreadTile`:
floor, upper clamp of `x1`/`y1`, lower clamp of `x0`/`y0`, fractional parts.
The coordinate itself is not clamped. -/
def inlineTaps (src : Image) (src_x src_y : ℚ) : Taps :=
  let x0 : Int := ⌊src_x⌋
  let y0 : Int := ⌊src_y⌋
  let x1 : Int := min (x0 + 1) (src.getWidth - 1)
  let y1 : Int := min (y0 + 1) (src.getHeight - 1)
  let x0 : Int := max 0 x0
  let y0 : Int := max 0 y0
  let fx : ℚ := src_x - (⌊src_x⌋ : Int)
  let fy : ℚ := src_y - (⌊src_y⌋ : Int)
  { x0 := x0, y0 := y0, x1 := x1, y1 := y1, fx := fx, fy := fy }

/-- The loop body shared by `resize_openmp` and `resizeThreadTile`: the inline
kernel at destination cell `(i, j)`, followed by `dst.setPixel(i, j, result)`. -/
def inlinePixel (src : Image) (scale_x scale_y : ℚ) (i j : Int) : Pixel :=
  let src_x : ℚ := (i : ℚ) * scale_x
  let src_y : ℚ := (j : ℚ) * scale_y
  blend src (inlineTaps src src_x src_y)

/-- `BilinearInterpolation::resize_openmp(src, new_height, new_width)`, with the
collapsed parallel loop run in row-major order. -/
def BilinearInterpolation.resize_openmp (src : Image) (new_height new_width : Int) : Image :=
  let dst := Image.new new_height new_width
  let scale_y : ℚ := (src.getHeight : ℚ) / (new_height : ℚ)
  let scale_x : ℚ := (src.getWidth : ℚ) / (new_width : ℚ)
  forLoop 0 new_height (fun j dst =>
    forLoop 0 new_width (fun i dst =>
      dst.setPixel i j (inlinePixel src scale_x scale_y i j)) dst) dst

/-- `resizeThreadTile(src, dst, start_j, end_j, new_width, scale_x, scale_y)`:
the worker of one tile; the mutated destination is returned. -/
def resizeThreadTile (src dst : Image) (start_j end_j new_width : Int)
    (scale_x scale_y : ℚ) : Image :=
  forLoop start_j end_j (fun j dst =>
    forLoop 0 new_width (fun i dst =>
      dst.setPixel i j (inlinePixel src scale_x scale_y i j)) dst) dst

/-- The number of tiles of `resize_threading`, from the value reported by
`thread::hardware_concurrency()`. -/
def numThreads (hardware_concurrency : Int) : Int :=
  if hardware_concurrency = 0 then 4 else hardware_concurrency

/-- In `resize_threading`: `tile_height = new_height / num_threads`. -/
def tileHeight (new_height num_threads : Int) : Int :=
  Int.tdiv new_height num_threads

/-- In `resize_threading`: `start_j = t * tile_height`. -/
def tileStart (new_height num_threads t : Int) : Int :=
  t * tileHeight new_height num_threads

/-- In `resize_threading`:
`end_j = (t == num_threads - 1) ? new_height : (t + 1) * tile_height`. -/
def tileEnd (new_height num_threads t : Int) : Int :=
  if t = num_threads - 1 then new_height else (t + 1) * tileHeight new_height num_threads

/-- The body of `resize_threading` once the number of threads is known: one
worker per tile, `t = 0, ..., num_threads - 1`. -/
def resizeTiles (src : Image) (new_height new_width num_threads : Int) : Image :=
  let dst := Image.new new_height new_width
  let scale_y : ℚ := (src.getHeight : ℚ) / (new_height : ℚ)
  let scale_x : ℚ := (src.getWidth : ℚ) / (new_width : ℚ)
  forLoop 0 num_threads (fun t dst =>
    let start_j := tileStart new_height num_threads t
    let end_j := tileEnd new_height num_threads t
    resizeThreadTile src dst start_j end_j new_width scale_x scale_y) dst

/-- `BilinearInterpolation::resize_threading(src, new_height, new_width)`; the
value reported by `thread::hardware_concurrency()` is a parameter. -/
def BilinearInterpolation.resize_threading (hardware_concurrency : Int) (src : Image)
    (new_height new_width : Int) : Image :=
  resizeTiles src new_height new_width (numThreads hardware_concurrency)

/-- The selection at the end of `BilinearInterpolation::benchmark`:
`best_time = min({time_serial, time_openmp, time_threading})` and the chain of
comparisons that names the best method. -/
def BilinearInterpolation.best_method (time_serial time_openmp time_threading : Int) : String :=
  let best_time := min (min time_serial time_openmp) time_threading
  if best_time = time_serial then "Serial"
  else if best_time = time_openmp then "OpenMP"
  else "Threading"

/-- The `4 x 4` sample grid of the test scenarios, as an image of the library:
the value of row `j`, column `i` is stored at `(i, j)` as `Pixel(v, v, v, 255)`. -/
def grid4 : Image :=
  { height := 4
    width := 4
    data := ([10, 30, 50, 70, 40, 60, 80, 100, 70, 90, 110, 130, 100, 120, 140, 160] :
      List ℚ).map (fun v => ⟨v, v, v, 255⟩) }

end interpolation

namespace singlefile

/-- The `Pixel` struct of the single-file program: three channels. -/
structure Pixel where
  r : ℚ
  g : ℚ
  b : ℚ
deriving DecidableEq

/-- The constructor `Pixel()`: a black pixel. -/
def Pixel.default : Pixel := ⟨0, 0, 0⟩

/-- The constructor `Pixel(float gray)`: one value for all channels. -/
def Pixel.gray (gray : ℚ) : Pixel := ⟨gray, gray, gray⟩

/-- The `Image` class of the single-file program: a one-dimensional buffer,
a width and a height. -/
structure Image where
  data : List Pixel
  width : Int
  height : Int
deriving DecidableEq

/-- The constructor `Image(w, h)`: `data.resize(w * h)`. -/
def Image.new (w h : Int) : Image :=
  { data := List.replicate (w * h).toNat Pixel.default, width := w, height := h }

/-- `Image::getWidth`. -/
def Image.getWidth (img : Image) : Int := img.width

/-- `Image::getHeight`. -/
def Image.getHeight (img : Image) : Int := img.height

/-- `Image::getPixel(x, y)`: `data[y * width + x]`, an unchecked access; an
index outside the buffer has no defined result, which is `none` here. -/
def Image.getPixel (img : Image) (x y : Int) : Option Pixel :=
  let idx : Int := y * img.width + x
  if 0 ≤ idx ∧ idx < (img.data.length : Int) then img.data.get? idx.toNat else none

/-- `Image::setPixel(x, y, p)`: `data[y * width + x] = p`, an unchecked access;
an index outside the buffer has no defined result, which is `none` here. -/
def Image.setPixel (img : Image) (x y : Int) (p : Pixel) : Option Image :=
  let idx : Int := y * img.width + x
  if 0 ≤ idx ∧ idx < (img.data.length : Int) then
    some { img with data := img.data.set idx.toNat p }
  else none

/-- The function `clamp(value, minVal, maxVal)`. -/
def clamp (value minVal maxVal : ℚ) : ℚ :=
  if value < minVal then minVal
  else if value > maxVal then maxVal
  else value

/-- Steps 1 to 3 of `bilinearInterpolate`: clamp of the coordinate, the four
neighbour indices and the two fractions. -/
def taps (image : Image) (x y : ℚ) : interpolation.Taps :=
  let maxX : ℚ := (image.getWidth : ℚ) - 1001 / 1000
  let maxY : ℚ := (image.getHeight : ℚ) - 1001 / 1000
  let x := clamp x 0 maxX
  let y := clamp y 0 maxY
  let x0 : Int := ⌊x⌋
  let y0 : Int := ⌊y⌋
  let x1 : Int := x0 + 1
  let y1 : Int := y0 + 1
  let x1 : Int := min x1 (image.getWidth - 1)
  let y1 : Int := min y1 (image.getHeight - 1)
  let fx : ℚ := x - (⌊x⌋ : Int)
  let fy : ℚ := y - (⌊y⌋ : Int)
  { x0 := x0, y0 := y0, x1 := x1, y1 := y1, fx := fx, fy := fy }

/-- The function `bilinearInterpolate(image, x, y)` of the single-file program:
steps 4 to 6 read the four neighbours, compute the weights and the weighted sum
of each channel. -/
def bilinearInterpolate (image : Image) (x y : ℚ) : Option Pixel := do
  let t := taps image x y
  let f00 ← image.getPixel t.x0 t.y0
  let f10 ← image.getPixel t.x1 t.y0
  let f01 ← image.getPixel t.x0 t.y1
  let f11 ← image.getPixel t.x1 t.y1
  let w := interpolation.weights t.fx t.fy
  pure { r := f00.r * w.w00 + f10.r * w.w10 + f01.r * w.w01 + f11.r * w.w11
         g := f00.g * w.w00 + f10.g * w.w10 + f01.g * w.w01 + f11.g * w.w11
         b := f00.b * w.w00 + f10.b * w.w10 + f01.b * w.w01 + f11.b * w.w11 }

/-- The sample image built by `main`: `values[y][x]` stored at `(x, y)` of a
`4 x 4` image, as `Pixel(values[y][x])`. -/
def sourceImage : Image :=
  { data := ([10, 30, 50, 70, 40, 60, 80, 100, 70, 90, 110, 130, 100, 120, 140, 160] :
      List ℚ).map Pixel.gray
    width := 4
    height := 4 }

end singlefile

namespace console

/-- The `Image` class of the console demo: rows of scalar samples. -/
structure Image where
  data : List (List ℚ)
  width : Int
  height : Int
deriving DecidableEq

/-- The constructor `Image(h, w)`: `h` rows of `w` zeros. -/
def Image.new (h w : Int) : Image :=
  { data := List.replicate h.toNat (List.replicate w.toNat 0), width := w, height := h }

/-- The accessor `Image::at(x, y)`: `data[y][x]` inside the grid, `0` outside. -/
def Image.at_ (img : Image) (x y : Int) : ℚ :=
  if x ≥ 0 ∧ x < img.width ∧ y ≥ 0 ∧ y < img.height then
    (img.data.getD y.toNat []).getD x.toNat 0
  else 0

/-- The accessor `Image::set(x, y, v)`: writes `data[y][x]` inside the grid and
does nothing outside. -/
def Image.set (img : Image) (x y : Int) (v : ℚ) : Image :=
  if x ≥ 0 ∧ x < img.width ∧ y ≥ 0 ∧ y < img.height then
    { img with data := img.data.set y.toNat ((img.data.getD y.toNat []).set x.toNat v) }
  else img

/-- Steps 2 and 3 of the console `bilinearInterpolate`: the four neighbours and
the fractions; the coordinate is not clamped here. -/
def taps (img : Image) (x y : ℚ) : interpolation.Taps :=
  let x0 : Int := ⌊x⌋
  let y0 : Int := ⌊y⌋
  let x1 : Int := min (x0 + 1) (img.width - 1)
  let y1 : Int := min (y0 + 1) (img.height - 1)
  let fx : ℚ := x - (⌊x⌋ : Int)
  let fy : ℚ := y - (⌊y⌋ : Int)
  { x0 := x0, y0 := y0, x1 := x1, y1 := y1, fx := fx, fy := fy }

/-- The function `bilinearInterpolate(img, x, y, showSteps)` of the console
demo; `showSteps` only controls what is printed and is left out. -/
def bilinearInterpolate (img : Image) (x y : ℚ) : ℚ :=
  let t := taps img x y
  let w := interpolation.weights t.fx t.fy
  let f00 := img.at_ t.x0 t.y0
  let f10 := img.at_ t.x1 t.y0
  let f01 := img.at_ t.x0 t.y1
  let f11 := img.at_ t.x1 t.y1
  let term1 := f00 * w.w00
  let term2 := f10 * w.w10
  let term3 := f01 * w.w01
  let term4 := f11 * w.w11
  term1 + term2 + term3 + term4

/-- The test image built by `main` of the console demo: `testVals[j][i]` stored
at `(i, j)` of a `4 x 4` image. -/
def testImg : Image :=
  { data := [[10, 30, 50, 70], [40, 60, 80, 100], [70, 90, 110, 130], [100, 120, 140, 160]]
    width := 4
    height := 4 }

end console

namespace interpolation

/-- The float quotient `(float)a / b` of two measured times, as computed for
`speedup_openmp` and `speedup_threading`. With a zero divisor the quotient is
not a number of the rationals (IEEE arithmetic gives an infinity or NaN), which
is `none` here. -/
def floatQuotient (a b : Int) : Option ℚ :=
  if b = 0 then none else some ((a : ℚ) / (b : ℚ))

/-- The struct `BilinearInterpolation::BenchmarkResult`. -/
structure BilinearInterpolation.BenchmarkResult where
  time_serial : Int
  time_openmp : Int
  time_threading : Int
  speedup_openmp : Option ℚ
  speedup_threading : Option ℚ
  best_method : String
deriving DecidableEq

/-- The record filled by `BilinearInterpolation::benchmark`, as a function of the
three measured times (the clock readings are parameters). -/
def BilinearInterpolation.benchmarkResult (time_serial time_openmp time_threading : Int) :
    BilinearInterpolation.BenchmarkResult :=
  { time_serial := time_serial
    time_openmp := time_openmp
    time_threading := time_threading
    speedup_openmp := floatQuotient time_serial time_openmp
    speedup_threading := floatQuotient time_serial time_threading
    best_method := BilinearInterpolation.best_method time_serial time_openmp time_threading }

/-- The index space of the collapsed loops of `resize_openmp`, as pairs
`(j, i)` in row-major order: `j = 0 .. new_height-1`, `i = 0 .. new_width-1`. -/
def indexSpace (new_height new_width : Int) : List (Int × Int) :=
  (List.range new_height.toNat).flatMap (fun (j : Nat) =>
    (List.range new_width.toNat).map (fun (i : Nat) => ((j : Int), (i : Int))))

/-- `BilinearInterpolation::resize_openmp` with the iterations of the collapsed
loop executed in the order given by `schedule`, a list of pairs `(j, i)`. -/
def resize_openmp_scheduled (src : Image) (new_height new_width : Int)
    (schedule : List (Int × Int)) : Image :=
  let dst := Image.new new_height new_width
  let scale_y : ℚ := (src.getHeight : ℚ) / (new_height : ℚ)
  let scale_x : ℚ := (src.getWidth : ℚ) / (new_width : ℚ)
  schedule.foldl (fun (dst : Image) (c : Int × Int) =>
    dst.setPixel c.2 c.1 (inlinePixel src scale_x scale_y c.2 c.1)) dst

/-- A copy of the sample grid that differs from it in the `g`, `b` and `a`
channels of every pixel and agrees with it in the `r` channel. -/
def grid4Recoloured : Image :=
  { height := 4
    width := 4
    data := ([10, 30, 50, 70, 40, 60, 80, 100, 70, 90, 110, 130, 100, 120, 140, 160] :
      List ℚ).map (fun v => ⟨v, 0, 1, 2⟩) }

end interpolation

namespace singlefile

/-- The buffer of the image holds exactly `width * height` samples, as after
`Image(w, h)` with positive dimensions. -/
def Image.WellFormed (img : Image) : Prop :=
  1 ≤ img.width ∧ 1 ≤ img.height ∧ img.data.length = (img.width * img.height).toNat

end singlefile

namespace demo

/-- The `Pixel` struct of the demo program, with the defaults of its
constructor `Pixel(float r = 0, float g = 0, float b = 0, float a = 255)`. -/
structure Pixel where
  r : ℚ
  g : ℚ
  b : ℚ
  a : ℚ
deriving DecidableEq

/-- The default sample `Pixel()`. -/
def Pixel.default : Pixel := ⟨0, 0, 0, 255⟩

/-- The `Image` class of the demo program: rows of pixels. -/
structure Image where
  data : List (List Pixel)
  width : Int
  height : Int
deriving DecidableEq

/-- The constructor `Image(h, w)`: `h` rows of `w` default pixels. -/
def Image.new (h w : Int) : Image :=
  { data := List.replicate h.toNat (List.replicate w.toNat Pixel.default)
    width := w
    height := h }

/-- `Image::getWidth`. -/
def Image.getWidth (img : Image) : Int := img.width

/-- `Image::getHeight`. -/
def Image.getHeight (img : Image) : Int := img.height

/-- `Image::getPixel(x, y)`: `data[y][x]` inside the grid, `Pixel()` outside. -/
def Image.getPixel (img : Image) (x y : Int) : Pixel :=
  if x ≥ 0 ∧ x < img.width ∧ y ≥ 0 ∧ y < img.height then
    (img.data.getD y.toNat []).getD x.toNat Pixel.default
  else Pixel.default

/-- `Image::setPixel(x, y, p)`: writes `data[y][x]` inside the grid and does
nothing outside. -/
def Image.setPixel (img : Image) (x y : Int) (p : Pixel) : Image :=
  if x ≥ 0 ∧ x < img.width ∧ y ≥ 0 ∧ y < img.height then
    { img with data := img.data.set y.toNat ((img.data.getD y.toNat []).set x.toNat p) }
  else img

/-- One call `printProgressBar(current, total, label)`, as an output event. -/
structure Progress where
  current : Int
  total : Int
  label : String
deriving DecidableEq

/-- The effect of `printProgressBar(current, total, label)` on the output: one
more event. -/
def printProgressBar (out : List Progress) (current total : Int) (label : String) :
    List Progress :=
  out ++ [{ current := current, total := total, label := label }]

/-- The first half of `BilinearDemo::interpolate`: clamp, integer coordinates
and fractional parts. -/
def BilinearDemo.taps (img : Image) (x y : ℚ) : interpolation.Taps :=
  let x : ℚ := max 0 (min x ((img.getWidth : ℚ) - 1001 / 1000))
  let y : ℚ := max 0 (min y ((img.getHeight : ℚ) - 1001 / 1000))
  let x0 : Int := ⌊x⌋
  let y0 : Int := ⌊y⌋
  let x1 : Int := min (x0 + 1) (img.getWidth - 1)
  let y1 : Int := min (y0 + 1) (img.getHeight - 1)
  let fx : ℚ := x - (⌊x⌋ : Int)
  let fy : ℚ := y - (⌊y⌋ : Int)
  { x0 := x0, y0 := y0, x1 := x1, y1 := y1, fx := fx, fy := fy }

/-- `BilinearDemo::interpolate(img, x, y)`. -/
def BilinearDemo.interpolate (img : Image) (x y : ℚ) : Pixel :=
  let t := BilinearDemo.taps img x y
  let f00 := img.getPixel t.x0 t.y0
  let f10 := img.getPixel t.x1 t.y0
  let f01 := img.getPixel t.x0 t.y1
  let f11 := img.getPixel t.x1 t.y1
  let w := interpolation.weights t.fx t.fy
  { r := f00.r * w.w00 + f10.r * w.w10 + f01.r * w.w01 + f11.r * w.w11
    g := f00.g * w.w00 + f10.g * w.w10 + f01.g * w.w01 + f11.g * w.w11
    b := f00.b * w.w00 + f10.b * w.w10 + f01.b * w.w01 + f11.b * w.w11
    a := f00.a * w.w00 + f10.a * w.w10 + f01.a * w.w01 + f11.a * w.w11 }

/-- `BilinearDemo::resize_serial(src, new_h, new_w, showProgress)`: the returned
grid and the progress output. -/
def BilinearDemo.resize_serial (src : Image) (new_h new_w : Int) (showProgress : Bool) :
    Image × List Progress :=
  let dst := Image.new new_h new_w
  let scale_y : ℚ := (src.getHeight : ℚ) / (new_h : ℚ)
  let scale_x : ℚ := (src.getWidth : ℚ) / (new_w : ℚ)
  let st := interpolation.forLoop 0 new_h (fun j (st : Image × List Progress) =>
    let out :=
      if showProgress = true ∧ Int.tmod j 10 = 0 then printProgressBar st.2 j new_h "Serial   "
      else st.2
    (interpolation.forLoop 0 new_w (fun i dst =>
        let src_x : ℚ := (i : ℚ) * scale_x
        let src_y : ℚ := (j : ℚ) * scale_y
        dst.setPixel i j (BilinearDemo.interpolate src src_x src_y)) st.1, out)) (dst, [])
  (st.1, if showProgress = true then printProgressBar st.2 new_h new_h "Serial   " else st.2)

/-- `BilinearDemo::resize_openmp(src, new_h, new_w, showProgress)`: the returned
grid and the progress output. -/
def BilinearDemo.resize_openmp (src : Image) (new_h new_w : Int) (showProgress : Bool) :
    Image × List Progress :=
  let dst := Image.new new_h new_w
  let scale_y : ℚ := (src.getHeight : ℚ) / (new_h : ℚ)
  let scale_x : ℚ := (src.getWidth : ℚ) / (new_w : ℚ)
  let st := interpolation.forLoop 0 new_h (fun j (st : Image × List Progress) =>
    let out :=
      if showProgress = true ∧ Int.tmod j 20 = 0 then printProgressBar st.2 j new_h "OpenMP   "
      else st.2
    (interpolation.forLoop 0 new_w (fun i dst =>
        let src_x : ℚ := (i : ℚ) * scale_x
        let src_y : ℚ := (j : ℚ) * scale_y
        dst.setPixel i j (BilinearDemo.interpolate src src_x src_y)) st.1, out)) (dst, [])
  (st.1, if showProgress = true then printProgressBar st.2 new_h new_h "OpenMP   " else st.2)

/-- `BilinearDemo::resize_threading(src, new_h, new_w, showProgress)`: the
returned grid and the progress output. -/
def BilinearDemo.resize_threading (src : Image) (new_h new_w : Int) (showProgress : Bool) :
    Image × List Progress :=
  let dst := Image.new new_h new_w
  let scale_y : ℚ := (src.getHeight : ℚ) / (new_h : ℚ)
  let scale_x : ℚ := (src.getWidth : ℚ) / (new_w : ℚ)
  let st := interpolation.forLoop 0 new_h (fun j (st : Image × List Progress) =>
    let out :=
      if showProgress = true ∧ Int.tmod j 15 = 0 then printProgressBar st.2 j new_h "Threading"
      else st.2
    (interpolation.forLoop 0 new_w (fun i dst =>
        let src_x : ℚ := (i : ℚ) * scale_x
        let src_y : ℚ := (j : ℚ) * scale_y
        dst.setPixel i j (BilinearDemo.interpolate src src_x src_y)) st.1, out)) (dst, [])
  (st.1, if showProgress = true then printProgressBar st.2 new_h new_h "Threading" else st.2)


end demo

namespace interpolation

theorem clampCoord_nonneg (v : ℚ) (dim : Int) : 0 ≤ BilinearInterpolation.clampCoord v dim := by
  unfold BilinearInterpolation.clampCoord
  exact le_max_left _ _

theorem clampCoord_le (v : ℚ) (dim : Int) (hd : 1 ≤ dim) :
    BilinearInterpolation.clampCoord v dim ≤ (dim : ℚ) - 1 := by
  unfold BilinearInterpolation.clampCoord
  have h1 : (1 : ℚ) ≤ (dim : ℚ) := by exact_mod_cast hd
  apply max_le
  · linarith
  · exact le_trans (min_le_right _ _) (by linarith)

theorem clampCoord_idem (v : ℚ) (dim : Int) :
    BilinearInterpolation.clampCoord (BilinearInterpolation.clampCoord v dim) dim
      = BilinearInterpolation.clampCoord v dim := by
  unfold BilinearInterpolation.clampCoord
  rcases le_total v ((dim : ℚ) - 1001 / 1000) with h | h
  · rw [min_eq_left h]
    rcases le_total 0 v with h0 | h0
    · rw [max_eq_right h0, min_eq_left h, max_eq_right h0]
    · rw [max_eq_left h0]
      rcases le_total (0 : ℚ) ((dim : ℚ) - 1001 / 1000) with h1 | h1
      · rw [min_eq_left h1, max_eq_left le_rfl]
      · rw [min_eq_right h1, max_eq_left h1]
  · rw [min_eq_right h]
    rcases le_total (0 : ℚ) ((dim : ℚ) - 1001 / 1000) with h1 | h1
    · rw [max_eq_right h1, min_eq_left le_rfl, max_eq_right h1]
    · rw [max_eq_left h1, min_eq_right h1, max_eq_left h1]

theorem floor_clampCoord_bounds (v : ℚ) (dim : Int) (hd : 1 ≤ dim) :
    0 ≤ ⌊BilinearInterpolation.clampCoord v dim⌋ ∧
      ⌊BilinearInterpolation.clampCoord v dim⌋ ≤ dim - 1 := by
  constructor
  · exact Int.floor_nonneg.mpr (clampCoord_nonneg v dim)
  · have h := clampCoord_le v dim hd
    have h2 : ((⌊BilinearInterpolation.clampCoord v dim⌋ : Int) : ℚ) ≤ ((dim - 1 : Int) : ℚ) := by
      push_cast
      exact le_trans (Int.floor_le _) h
    exact_mod_cast h2

theorem taps_clampCoord (image : Image) (x y : ℚ) :
    BilinearInterpolation.taps image (BilinearInterpolation.clampCoord x image.getWidth)
        (BilinearInterpolation.clampCoord y image.getHeight)
      = BilinearInterpolation.taps image x y := by
  simp only [BilinearInterpolation.taps, clampCoord_idem]

theorem clampCoord_of_nonpos (v : ℚ) (dim : Int) (hv : v ≤ 0) :
    BilinearInterpolation.clampCoord v dim = BilinearInterpolation.clampCoord 0 dim := by
  unfold BilinearInterpolation.clampCoord
  rcases le_total (0 : ℚ) ((dim : ℚ) - 1001 / 1000) with h1 | h1
  · rw [min_eq_left (le_trans hv h1), min_eq_left h1, max_eq_left hv, max_eq_left le_rfl]
  · rw [min_eq_right h1, max_eq_left h1, max_eq_left (le_trans (min_le_right _ _) h1)]

theorem clampCoord_of_large (v u : ℚ) (dim : Int) (hv : (dim : ℚ) - 1001 / 1000 ≤ v)
    (hu : (dim : ℚ) - 1001 / 1000 ≤ u) :
    BilinearInterpolation.clampCoord v dim = BilinearInterpolation.clampCoord u dim := by
  unfold BilinearInterpolation.clampCoord
  rw [min_eq_right hv, min_eq_right hu]

/-- C5: the kernel at `(x, y)` equals the kernel at the clamped coordinate
`(max 0 (min x (width - 1.001)), max 0 (min y (height - 1.001)))`; in particular
the value at `(-5, -5)` is the value at `(0, 0)` and the value at
`(width + 5, height + 5)` is the value at `(width - 1, height - 1)`. -/
theorem interpolate_boundary_clamping (image : Image) :
    (∀ x y : ℚ, BilinearInterpolation.interpolate image x y =
      BilinearInterpolation.interpolate image
        (max 0 (min x ((image.getWidth : ℚ) - 1001 / 1000)))
        (max 0 (min y ((image.getHeight : ℚ) - 1001 / 1000)))) ∧
    BilinearInterpolation.interpolate image (-5) (-5) =
      BilinearInterpolation.interpolate image 0 0 ∧
    BilinearInterpolation.interpolate image ((image.getWidth : ℚ) + 5) ((image.getHeight : ℚ) + 5) =
      BilinearInterpolation.interpolate image ((image.getWidth : ℚ) - 1) ((image.getHeight : ℚ) - 1) := by
  refine ⟨?_, ?_, ?_⟩
  · intro x y
    have h := taps_clampCoord image x y
    unfold BilinearInterpolation.clampCoord at h
    unfold BilinearInterpolation.interpolate
    rw [h]
  · unfold BilinearInterpolation.interpolate BilinearInterpolation.taps
    rw [clampCoord_of_nonpos (-5) image.getWidth (by norm_num),
      clampCoord_of_nonpos (-5) image.getHeight (by norm_num)]
  · unfold BilinearInterpolation.interpolate BilinearInterpolation.taps
    rw [clampCoord_of_large ((image.getWidth : ℚ) + 5) ((image.getWidth : ℚ) - 1) image.getWidth
        (by linarith) (by linarith),
      clampCoord_of_large ((image.getHeight : ℚ) + 5) ((image.getHeight : ℚ) - 1) image.getHeight
        (by linarith) (by linarith)]

/-- C8: the four kernel weights computed from any fractional offsets `fx`, `fy`
(in particular from offsets in `[0, 1)`) sum to exactly 1. -/
theorem weights_sum_one (fx fy : ℚ) :
    (weights fx fy).w00 + (weights fx fy).w10 + (weights fx fy).w01 + (weights fx fy).w11 = 1 := by
  simp only [weights]
  ring

/-- C10: the best method named by `benchmark` has the minimal time of the three,
and ties go to the first of Serial, OpenMP, Threading: the name is "Serial" iff
the serial time is at most both others, "OpenMP" iff the OpenMP time is strictly
below the serial time and at most the threading time, and "Threading" iff the
threading time is strictly below both others. -/
theorem best_method_selects_first_minimum (time_serial time_openmp time_threading : Int) :
    (BilinearInterpolation.best_method time_serial time_openmp time_threading = "Serial" ↔
      time_serial ≤ time_openmp ∧ time_serial ≤ time_threading) ∧
    (BilinearInterpolation.best_method time_serial time_openmp time_threading = "OpenMP" ↔
      time_openmp < time_serial ∧ time_openmp ≤ time_threading) ∧
    (BilinearInterpolation.best_method time_serial time_openmp time_threading = "Threading" ↔
      time_threading < time_serial ∧ time_threading < time_openmp) ∧
    (BilinearInterpolation.best_method time_serial time_openmp time_threading = "Serial" →
      time_serial = min (min time_serial time_openmp) time_threading) ∧
    (BilinearInterpolation.best_method time_serial time_openmp time_threading = "OpenMP" →
      time_openmp = min (min time_serial time_openmp) time_threading) ∧
    (BilinearInterpolation.best_method time_serial time_openmp time_threading = "Threading" →
      time_threading = min (min time_serial time_openmp) time_threading) := by
  have hSO : ("Serial" : String) ≠ "OpenMP" := by decide
  have hST : ("Serial" : String) ≠ "Threading" := by decide
  have hOT : ("OpenMP" : String) ≠ "Threading" := by decide
  unfold BilinearInterpolation.best_method
  simp only []
  split_ifs with h1 h2
  · simp only [true_iff, hSO, hST, false_iff, true_implies, false_implies, and_true]
    omega
  · simp only [true_iff, hSO.symm, hOT, false_iff, true_implies, false_implies, and_true,
      true_and]
    omega
  · simp only [true_iff, hST.symm, hOT.symm, false_iff, true_implies, false_implies, and_true,
      true_and]
    omega


theorem tileHeight_eq_ediv (H N : Int) (hH : 0 ≤ H) (hN : 1 ≤ N) : tileHeight H N = H / N := by
  unfold tileHeight
  exact Int.tdiv_eq_ediv hH (by omega)

theorem tileHeight_nonneg (H N : Int) (hH : 0 ≤ H) (hN : 1 ≤ N) : 0 ≤ tileHeight H N := by
  rw [tileHeight_eq_ediv H N hH hN]
  exact Int.ediv_nonneg hH (by omega)

theorem tileHeight_mul_le (H N : Int) (hH : 0 ≤ H) (hN : 1 ≤ N) : N * tileHeight H N ≤ H := by
  rw [tileHeight_eq_ediv H N hH hN]
  have h := Int.ediv_mul_le H (show N ≠ 0 by omega)
  rw [mul_comm]
  exact h

theorem tileStart_le_tileEnd (H N t : Int) (hH : 0 ≤ H) (hN : 1 ≤ N) (ht0 : 0 ≤ t) (htN : t < N) :
    tileStart H N t ≤ tileEnd H N t := by
  have hq := tileHeight_nonneg H N hH hN
  have hle := tileHeight_mul_le H N hH hN
  unfold tileStart tileEnd
  split_ifs with h
  · subst h
    nlinarith
  · nlinarith

theorem tile_of_row (H N j : Int) (hH : 0 ≤ H) (hN : 1 ≤ N) (hj0 : 0 ≤ j) (hjH : j < H) :
    ∃ t, (0 ≤ t ∧ t < N ∧ tileStart H N t ≤ j ∧ j < tileEnd H N t) ∧
      ∀ u, (0 ≤ u ∧ u < N ∧ tileStart H N u ≤ j ∧ j < tileEnd H N u) → u = t := by
  have hq := tileHeight_nonneg H N hH hN
  have hle := tileHeight_mul_le H N hH hN
  rcases eq_or_lt_of_le hq with hq0 | hqpos
  · -- every tile but the last is empty
    refine ⟨N - 1, ⟨by omega, by omega, ?_, ?_⟩, ?_⟩
    · unfold tileStart; rw [← hq0]; simpa using hj0
    · unfold tileEnd; simpa using hjH
    · rintro u ⟨hu0, huN, hus, hue⟩
      by_contra hne
      unfold tileEnd at hue
      rw [if_neg hne, ← hq0] at hue
      simp at hue
      omega
  · have hdiv0 : 0 ≤ j / tileHeight H N := Int.ediv_nonneg hj0 hq
    have hlow : j / tileHeight H N * tileHeight H N ≤ j := Int.ediv_mul_le j (by omega)
    have hupp : j < (j / tileHeight H N + 1) * tileHeight H N :=
      Int.lt_ediv_add_one_mul_self j hqpos
    by_cases hlast : j / tileHeight H N < N - 1
    · refine ⟨j / tileHeight H N, ⟨hdiv0, by omega, ?_, ?_⟩, ?_⟩
      · unfold tileStart; exact hlow
      · unfold tileEnd; rw [if_neg (by omega)]; exact hupp
      · rintro u ⟨hu0, huN, hus, hue⟩
        unfold tileStart at hus
        unfold tileEnd at hue
        by_cases hu : u = N - 1
        · subst hu
          have : (j / tileHeight H N + 1) * tileHeight H N ≤ (N - 1) * tileHeight H N :=
            Int.mul_le_mul_of_nonneg_right (by omega) hq
          omega
        · rw [if_neg hu] at hue
          have h1 : u ≤ j / tileHeight H N := Int.le_ediv_of_mul_le hqpos hus
          have h2 : j / tileHeight H N < u + 1 := Int.ediv_lt_of_lt_mul hqpos hue
          omega
    · have hge : (N - 1) * tileHeight H N ≤ j / tileHeight H N * tileHeight H N :=
        Int.mul_le_mul_of_nonneg_right (by omega) hq
      refine ⟨N - 1, ⟨by omega, by omega, ?_, ?_⟩, ?_⟩
      · unfold tileStart; omega
      · unfold tileEnd; rw [if_pos rfl]; exact hjH
      · rintro u ⟨hu0, huN, hus, hue⟩
        by_contra hne
        unfold tileEnd at hue
        rw [if_neg hne] at hue
        have : (u + 1) * tileHeight H N ≤ (N - 1) * tileHeight H N :=
          Int.mul_le_mul_of_nonneg_right (by omega) hq
        omega

/-- C6: for a destination height `H ≥ 0` and `N ≥ 1` tiles, every destination
row `j` of `[0, H)` lies in the row range `[start_t, end_t)` of exactly one tile
`t` of `[0, N)`: no row is skipped and none belongs to two tiles. -/
theorem tile_coverage (H N j : Int) (hH : 0 ≤ H) (hN : 1 ≤ N) (hj0 : 0 ≤ j) (hjH : j < H) :
    ∃! t, 0 ≤ t ∧ t < N ∧ tileStart H N t ≤ j ∧ j < tileEnd H N t := by
  obtain ⟨t, ht, huniq⟩ := tile_of_row H N j hH hN hj0 hjH
  exact ⟨t, ht, huniq⟩

/-- C6 at a concrete input: `H = 10`, `N = 4`, row `j = 9`. -/
theorem tile_coverage_witness :
    ∃! t, 0 ≤ t ∧ t < (4 : Int) ∧ tileStart 10 4 t ≤ 9 ∧ 9 < tileEnd 10 4 t :=
  tile_coverage 10 4 9 (by decide) (by decide) (by decide) (by decide)


theorem tileHeight_eq_floor (H N : Int) (hH : 0 ≤ H) (hN : 1 ≤ N) :
    tileHeight H N = ⌊(H : ℚ) / (N : ℚ)⌋ := by
  rw [tileHeight_eq_ediv H N hH hN]
  obtain ⟨n, rfl⟩ := Int.eq_ofNat_of_zero_le (show 0 ≤ N by omega)
  have h := Rat.floor_intCast_div_natCast H n
  simpa using h.symm

theorem tile_heights_telescope (H N : Int) (hN : 1 ≤ N) :
    (∑ t in Finset.range N.toNat, (tileEnd H N (t : Int) - tileStart H N (t : Int))) = H := by
  obtain ⟨g, hg⟩ : ∃ g : ℕ → Int, ∀ m, g m = if m = N.toNat then H else (m : Int) * tileHeight H N :=
    ⟨_, fun _ => rfl⟩
  have hcongr : ∀ k ∈ Finset.range N.toNat,
      tileEnd H N (k : Int) - tileStart H N (k : Int) = g (k + 1) - g k := by
    intro k hk
    have hk2 : k < N.toNat := Finset.mem_range.mp hk
    have hgk : g k = (k : Int) * tileHeight H N := by
      rw [hg, if_neg (by omega)]
    rw [hgk, hg]
    unfold tileEnd tileStart
    by_cases hlast : (k : Int) = N - 1
    · rw [if_pos hlast, if_pos (by omega)]
    · rw [if_neg hlast, if_neg (by omega)]
      push_cast
      ring
  rw [Finset.sum_congr rfl hcongr, Finset.sum_range_sub, hg, hg, if_pos rfl, if_neg (by omega)]
  simp

/-- C7: for a destination height `H ≥ 0` and `N ≥ 1` tiles, every tile height
`end_t - start_t` is non-negative, the heights sum to exactly `H`, every tile
but the last has height `floor(H / N)`, and the last tile has height
`H - (N-1) * floor(H / N)`, which is `floor(H / N)` plus the remainder
`H mod N`. -/
theorem tile_heights_remainder_absorption (H N : Int) (hH : 0 ≤ H) (hN : 1 ≤ N) :
    (∀ t, 0 ≤ t → t < N → 0 ≤ tileEnd H N t - tileStart H N t) ∧
    (∑ t in Finset.range N.toNat, (tileEnd H N (t : Int) - tileStart H N (t : Int))) = H ∧
    (∀ t, 0 ≤ t → t < N - 1 → tileEnd H N t - tileStart H N t = ⌊(H : ℚ) / (N : ℚ)⌋) ∧
    tileEnd H N (N - 1) - tileStart H N (N - 1) = H - (N - 1) * ⌊(H : ℚ) / (N : ℚ)⌋ ∧
    tileEnd H N (N - 1) - tileStart H N (N - 1) = ⌊(H : ℚ) / (N : ℚ)⌋ + H % N := by
  have hfloor := tileHeight_eq_floor H N hH hN
  have hediv := tileHeight_eq_ediv H N hH hN
  refine ⟨?_, tile_heights_telescope H N hN, ?_, ?_, ?_⟩
  · intro t ht0 htN
    have := tileStart_le_tileEnd H N t hH hN ht0 htN
    omega
  · intro t _ htN
    unfold tileEnd tileStart
    rw [if_neg (by omega), ← hfloor]
    ring
  · unfold tileEnd tileStart
    rw [if_pos rfl, ← hfloor]
  · unfold tileEnd tileStart
    rw [if_pos rfl, ← hfloor, hediv]
    have h := Int.ediv_add_emod H N
    have h2 : (N - 1) * (H / N) = N * (H / N) - H / N := by ring
    rw [h2]
    omega

/-- C7 at a concrete input: `H = 10` rows over `N = 4` tiles. -/
theorem tile_heights_remainder_absorption_witness :
    (∀ t, 0 ≤ t → t < (4 : Int) → 0 ≤ tileEnd 10 4 t - tileStart 10 4 t) ∧
    (∑ t in Finset.range (4 : Int).toNat, (tileEnd 10 4 (t : Int) - tileStart 10 4 (t : Int))) = 10 ∧
    (∀ t, 0 ≤ t → t < (4 : Int) - 1 →
      tileEnd 10 4 t - tileStart 10 4 t = ⌊((10 : Int) : ℚ) / ((4 : Int) : ℚ)⌋) ∧
    tileEnd 10 4 (4 - 1) - tileStart 10 4 (4 - 1) =
      10 - (4 - 1) * ⌊((10 : Int) : ℚ) / ((4 : Int) : ℚ)⌋ ∧
    tileEnd 10 4 (4 - 1) - tileStart 10 4 (4 - 1) =
      ⌊((10 : Int) : ℚ) / ((4 : Int) : ℚ)⌋ + 10 % 4 :=
  tile_heights_remainder_absorption 10 4 (by decide) (by decide)


theorem clamp_3_4 : BilinearInterpolation.clampCoord 3 4 = 2999 / 1000 := by
  unfold BilinearInterpolation.clampCoord
  norm_num

theorem clamp_0_4 : BilinearInterpolation.clampCoord 0 4 = 0 := by
  unfold BilinearInterpolation.clampCoord
  norm_num

theorem taps_grid4_3_0 : BilinearInterpolation.taps grid4 3 0 = ⟨2, 0, 3, 1, 999/1000, 0⟩ := by
  simp only [BilinearInterpolation.taps, grid4, Image.getWidth, Image.getHeight, clamp_3_4, clamp_0_4]
  norm_num

theorem interp_grid4_3_0 : BilinearInterpolation.interpolate grid4 3 0 = ⟨6998/100, 6998/100, 6998/100, 255⟩ := by
  unfold BilinearInterpolation.interpolate
  rw [taps_grid4_3_0]
  simp [blend, Image.getPixel, Image.inBounds, Image.index, grid4, weights, weightedSum]
  norm_num

theorem getPixel_grid4_3_0 : grid4.getPixel 3 0 = ⟨70, 70, 70, 255⟩ := by
  simp [Image.getPixel, Image.inBounds, Image.index, grid4]


theorem clampCoord_intCast (i dim : Int) (hi0 : 0 ≤ i) (hi : i + 1 < dim ∨ (dim = 1 ∧ i = 0)) :
    BilinearInterpolation.clampCoord (i : ℚ) dim = (i : ℚ) := by
  unfold BilinearInterpolation.clampCoord
  rcases hi with h | ⟨h1, h2⟩
  · have hq : ((i + 2 : Int) : ℚ) ≤ (dim : ℚ) := by exact_mod_cast (show i + 2 ≤ dim by omega)
    push_cast at hq
    have h0 : (0 : ℚ) ≤ (i : ℚ) := by exact_mod_cast hi0
    rw [min_eq_left (by linarith), max_eq_right h0]
  · subst h1 h2
    norm_num

theorem blend_zero_offsets (image : Image) (x0 y0 x1 y1 : Int) :
    blend image ⟨x0, y0, x1, y1, 0, 0⟩ = image.getPixel x0 y0 := by
  simp [blend, weights, weightedSum]

theorem interpolate_at_unclamped_int (image : Image) (i j : Int)
    (hx : BilinearInterpolation.clampCoord (i : ℚ) image.getWidth = (i : ℚ))
    (hy : BilinearInterpolation.clampCoord (j : ℚ) image.getHeight = (j : ℚ)) :
    BilinearInterpolation.interpolate image (i : ℚ) (j : ℚ) = image.getPixel i j := by
  unfold BilinearInterpolation.interpolate BilinearInterpolation.taps
  simp only [hx, hy, Int.floor_intCast, sub_self]
  exact blend_zero_offsets image i j _ _

/-- C2, amended: for integers `i`, `j` inside the grid that are not in the last
column or last row of a grid with more than one column or row (`i + 1 < width`
or `width = 1`, and `j + 1 < height` or `height = 1`), the kernel at `(i, j)`
returns exactly the sample `grid[i, j]` in every channel. -/
theorem interpolate_exact_pixel (image : Image) (i j : Int)
    (hi0 : 0 ≤ i) (hi : i < image.getWidth) (hj0 : 0 ≤ j) (hj : j < image.getHeight)
    (hcol : i + 1 < image.getWidth ∨ image.getWidth = 1)
    (hrow : j + 1 < image.getHeight ∨ image.getHeight = 1) :
    BilinearInterpolation.interpolate image (i : ℚ) (j : ℚ) = image.getPixel i j := by
  apply interpolate_at_unclamped_int
  · apply clampCoord_intCast i _ hi0
    rcases hcol with h | h
    · exact Or.inl h
    · exact Or.inr ⟨h, by omega⟩
  · apply clampCoord_intCast j _ hj0
    rcases hrow with h | h
    · exact Or.inl h
    · exact Or.inr ⟨h, by omega⟩

/-- C2 at a concrete input: the sample grid at the interior pixel `(2, 1)`. -/
theorem interpolate_exact_pixel_witness :
    BilinearInterpolation.interpolate grid4 ((2 : Int) : ℚ) ((1 : Int) : ℚ) = grid4.getPixel 2 1 :=
  interpolate_exact_pixel grid4 2 1 (by decide) (by decide) (by decide) (by decide)
    (Or.inl (by decide)) (Or.inl (by decide))

/-- C2 as stated fails: on the sample grid the kernel at the integer point
`(3, 0)` of the last column returns `69.98`, not the sample `70`. -/
theorem interpolate_exact_pixel_fails_last_column :
    ¬ (∀ (image : Image) (i j : Int), 0 ≤ i → i < image.getWidth → 0 ≤ j → j < image.getHeight →
        BilinearInterpolation.interpolate image (i : ℚ) (j : ℚ) = image.getPixel i j) := by
  intro h
  have h1 := h grid4 3 0 (by decide) (by decide) (by decide) (by decide)
  have h2 : BilinearInterpolation.interpolate grid4 ((3 : Int) : ℚ) ((0 : Int) : ℚ) =
      ⟨6998/100, 6998/100, 6998/100, 255⟩ := by
    have := interp_grid4_3_0
    simpa using this
  rw [h2, getPixel_grid4_3_0] at h1
  have h3 := congrArg Pixel.r h1
  norm_num at h3


theorem index_lt_length (img : Image) (x y : Int) (hwf : img.WellFormed) (hb : img.inBounds x y) :
    img.index x y < img.data.length := by
  obtain ⟨hw, hh, hlen⟩ := hwf
  obtain ⟨hx0, hxw, hy0, hyh⟩ := hb
  unfold Image.index
  rw [hlen]
  have h1 : y * img.width ≤ (img.height - 1) * img.width :=
    Int.mul_le_mul_of_nonneg_right (by omega) hw
  have h2 : 0 ≤ y * img.width := Int.mul_nonneg hy0 hw
  have h3 : (img.height - 1) * img.width = img.width * img.height - img.width := by ring
  omega

theorem index_injective (img : Image) (x y u v : Int) (hb : img.inBounds x y)
    (hb2 : img.inBounds u v) (h : img.index x y = img.index u v) : x = u ∧ y = v := by
  obtain ⟨hx0, hxw, hy0, hyh⟩ := hb
  obtain ⟨hu0, huw, hv0, hvh⟩ := hb2
  have hw : 0 ≤ img.width := by omega
  unfold Image.index at h
  have h2 : 0 ≤ y * img.width := Int.mul_nonneg hy0 hw
  have h3 : 0 ≤ v * img.width := Int.mul_nonneg hv0 hw
  have h4 : y * img.width + x = v * img.width + u := by omega
  have hyv : y = v := by
    rcases lt_trichotomy y v with hlt | heq | hgt
    · have : (y + 1) * img.width ≤ v * img.width :=
        Int.mul_le_mul_of_nonneg_right (by omega) hw
      have : (y + 1) * img.width = y * img.width + img.width := by ring
      omega
    · exact heq
    · have : (v + 1) * img.width ≤ y * img.width :=
        Int.mul_le_mul_of_nonneg_right (by omega) hw
      have : (v + 1) * img.width = v * img.width + img.width := by ring
      omega
  subst hyv
  exact ⟨by omega, rfl⟩

theorem setPixel_width (img : Image) (x y : Int) (p : Pixel) :
    (img.setPixel x y p).width = img.width := by
  unfold Image.setPixel
  split_ifs <;> rfl

theorem setPixel_height (img : Image) (x y : Int) (p : Pixel) :
    (img.setPixel x y p).height = img.height := by
  unfold Image.setPixel
  split_ifs <;> rfl

theorem setPixel_wellFormed (img : Image) (x y : Int) (p : Pixel) (hwf : img.WellFormed) :
    (img.setPixel x y p).WellFormed := by
  unfold Image.setPixel
  split_ifs
  · obtain ⟨hw, hh, hlen⟩ := hwf
    exact ⟨hw, hh, by simpa using hlen⟩
  · exact hwf

theorem setPixel_inBounds (img : Image) (x y : Int) (p : Pixel) (u v : Int) :
    (img.setPixel x y p).inBounds u v ↔ img.inBounds u v := by
  unfold Image.inBounds
  rw [setPixel_width, setPixel_height]

theorem getPixel_setPixel (img : Image) (x y : Int) (p : Pixel) (u v : Int)
    (hwf : img.WellFormed) :
    (img.setPixel x y p).getPixel u v =
      if u = x ∧ v = y ∧ img.inBounds x y then p else img.getPixel u v := by
  by_cases hb : img.inBounds x y
  · by_cases hb2 : img.inBounds u v
    · have hb2' : (img.setPixel x y p).inBounds u v := (setPixel_inBounds img x y p u v).mpr hb2
      have hidx : (img.setPixel x y p).index u v = img.index u v := by
        unfold Image.index; rw [setPixel_width]
      have hdata : (img.setPixel x y p).data = img.data.set (img.index x y) p := by
        unfold Image.setPixel; rw [if_pos hb]
      unfold Image.getPixel
      rw [if_pos hb2', if_pos hb2, hidx, hdata]
      simp only [List.getD_eq_getElem?_getD, List.getElem?_set]
      by_cases hc : u = x ∧ v = y
      · obtain ⟨rfl, rfl⟩ := hc
        have hlt := index_lt_length img u v hwf hb
        simp [hb, hlt]
      · have hne : img.index x y ≠ img.index u v := by
          intro heq
          have := index_injective img x y u v hb hb2 heq
          exact hc ⟨this.1.symm, this.2.symm⟩
        rw [if_neg hne, if_neg (by tauto)]
    · have hb2' : ¬ (img.setPixel x y p).inBounds u v := by
        rw [setPixel_inBounds]; exact hb2
      have hc : ¬ (u = x ∧ v = y ∧ img.inBounds x y) := by
        rintro ⟨rfl, rfl, _⟩; exact hb2 hb
      unfold Image.getPixel
      rw [if_neg hb2', if_neg hb2, if_neg hc]
  · have : img.setPixel x y p = img := by
      unfold Image.setPixel; rw [if_neg hb]
    rw [this, if_neg (by tauto)]


theorem forLoop_of_le {σ : Type} (lo hi : Int) (body : Int → σ → σ) (s : σ) (h : hi ≤ lo) :
    forLoop lo hi body s = s := by
  unfold forLoop
  have : (hi - lo).toNat = 0 := by omega
  rw [this]
  rfl

theorem forLoop_invariant {σ : Type} (P : Int → σ → Prop) (lo hi : Int) (body : Int → σ → σ)
    (s : σ) (hle : lo ≤ hi) (h0 : P lo s)
    (hstep : ∀ k acc, lo ≤ k → k < hi → P k acc → P (k + 1) (body k acc)) :
    P hi (forLoop lo hi body s) := by
  have key : ∀ n : ℕ, lo + (n : Int) ≤ hi →
      P (lo + (n : Int))
        ((List.range n).foldl (fun (acc : σ) (k : Nat) => body (lo + (k : Int)) acc) s) := by
    intro n
    induction n with
    | zero => intro _; simpa using h0
    | succ m ih =>
      intro hm
      have hm2 : lo + (m : Int) ≤ hi := by push_cast at hm; omega
      have hprev := ih hm2
      rw [List.range_succ, List.foldl_append]
      have hs := hstep (lo + (m : Int)) _ (by omega) (by push_cast at hm; omega) hprev
      have hcast : lo + ((m + 1 : ℕ) : Int) = lo + (m : Int) + 1 := by push_cast; ring
      rw [hcast]
      simpa using hs
  have hfin := key (hi - lo).toNat (by omega)
  have hcast : lo + (((hi - lo).toNat : ℕ) : Int) = hi := by omega
  rw [hcast] at hfin
  exact hfin

theorem fill_row (f : Int → Int → Pixel) (dst : Image) (j n : Int) (hwf : dst.WellFormed) :
    (forLoop 0 n (fun i d => d.setPixel i j (f i j)) dst).WellFormed ∧
    (forLoop 0 n (fun i d => d.setPixel i j (f i j)) dst).width = dst.width ∧
    (forLoop 0 n (fun i d => d.setPixel i j (f i j)) dst).height = dst.height ∧
    ∀ u v, (forLoop 0 n (fun i d => d.setPixel i j (f i j)) dst).getPixel u v =
      if v = j ∧ 0 ≤ u ∧ u < n ∧ dst.inBounds u v then f u v else dst.getPixel u v := by
  by_cases hn : 0 ≤ n
  · refine forLoop_invariant
      (fun k d => d.WellFormed ∧ d.width = dst.width ∧ d.height = dst.height ∧
        ∀ u v, d.getPixel u v =
          if v = j ∧ 0 ≤ u ∧ u < k ∧ dst.inBounds u v then f u v else dst.getPixel u v)
      0 n _ dst hn ?_ ?_
    · refine ⟨hwf, rfl, rfl, ?_⟩
      intro u v
      rw [if_neg (by omega)]
    · rintro k acc hk0 hkn ⟨hawf, haw, hah, hget⟩
      refine ⟨setPixel_wellFormed acc k j _ hawf, ?_, ?_, ?_⟩
      · rw [setPixel_width, haw]
      · rw [setPixel_height, hah]
      · intro u v
        have hbeq : acc.inBounds k j ↔ dst.inBounds k j := by
          unfold Image.inBounds; rw [haw, hah]
        rw [getPixel_setPixel acc k j _ u v hawf, hget u v]
        simp only [hbeq]
        by_cases hc : u = k ∧ v = j ∧ dst.inBounds k j
        · obtain ⟨rfl, rfl, hb⟩ := hc
          rw [if_pos ⟨rfl, rfl, hb⟩, if_pos ⟨rfl, hk0, by omega, hb⟩]
        · rw [if_neg hc]
          by_cases hd : v = j ∧ 0 ≤ u ∧ u < k ∧ dst.inBounds u v
          · rw [if_pos hd, if_pos ⟨hd.1, hd.2.1, by omega, hd.2.2.2⟩]
          · rw [if_neg hd, if_neg]
            rintro ⟨hv, hu0, huk, hb⟩
            by_cases huk2 : u = k
            · subst huk2 hv
              exact hc ⟨rfl, rfl, hb⟩
            · exact hd ⟨hv, hu0, by omega, hb⟩
  · rw [forLoop_of_le 0 n _ dst (by omega)]
    refine ⟨hwf, rfl, rfl, ?_⟩
    intro u v
    rw [if_neg (by omega)]

theorem fill_rows (f : Int → Int → Pixel) (dst : Image) (lo hi n : Int) (hwf : dst.WellFormed) :
    (forLoop lo hi (fun j d => forLoop 0 n (fun i d => d.setPixel i j (f i j)) d) dst).WellFormed ∧
    (forLoop lo hi (fun j d => forLoop 0 n (fun i d => d.setPixel i j (f i j)) d) dst).width
      = dst.width ∧
    (forLoop lo hi (fun j d => forLoop 0 n (fun i d => d.setPixel i j (f i j)) d) dst).height
      = dst.height ∧
    ∀ u v, (forLoop lo hi (fun j d => forLoop 0 n (fun i d => d.setPixel i j (f i j)) d)
        dst).getPixel u v =
      if lo ≤ v ∧ v < hi ∧ 0 ≤ u ∧ u < n ∧ dst.inBounds u v then f u v else dst.getPixel u v := by
  by_cases hn : lo ≤ hi
  · refine forLoop_invariant
      (fun k d => d.WellFormed ∧ d.width = dst.width ∧ d.height = dst.height ∧
        ∀ u v, d.getPixel u v =
          if lo ≤ v ∧ v < k ∧ 0 ≤ u ∧ u < n ∧ dst.inBounds u v then f u v else dst.getPixel u v)
      lo hi _ dst hn ?_ ?_
    · refine ⟨hwf, rfl, rfl, ?_⟩
      intro u v
      rw [if_neg (by omega)]
    · rintro k acc hk0 hkn ⟨hawf, haw, hah, hget⟩
      obtain ⟨rwf, rw_, rh, rget⟩ := fill_row f acc k n hawf
      refine ⟨rwf, by rw [rw_, haw], by rw [rh, hah], ?_⟩
      intro u v
      have hbeq : acc.inBounds u v ↔ dst.inBounds u v := by
        unfold Image.inBounds; rw [haw, hah]
      rw [rget u v, hget u v]
      simp only [hbeq]
      by_cases hc : v = k ∧ 0 ≤ u ∧ u < n ∧ dst.inBounds u v
      · rw [if_pos hc, if_pos ⟨by omega, by omega, hc.2.1, hc.2.2.1, hc.2.2.2⟩]
      · rw [if_neg hc]
        by_cases hd : lo ≤ v ∧ v < k ∧ 0 ≤ u ∧ u < n ∧ dst.inBounds u v
        · rw [if_pos hd, if_pos ⟨hd.1, by omega, hd.2.2⟩]
        · rw [if_neg hd, if_neg]
          rintro ⟨hlo, hv, hrest⟩
          by_cases hvk : v = k
          · exact hc ⟨hvk, hrest⟩
          · exact hd ⟨hlo, by omega, hrest⟩
  · rw [forLoop_of_le lo hi _ dst (by omega)]
    refine ⟨hwf, rfl, rfl, ?_⟩
    intro u v
    rw [if_neg (by omega)]

theorem new_wellFormed (h w : Int) (hh : 0 ≤ h) (hw : 0 ≤ w) : (Image.new h w).WellFormed :=
  ⟨hw, hh, by simp [Image.new]⟩


theorem new_inBounds (h w u v : Int) :
    (Image.new h w).inBounds u v ↔ 0 ≤ u ∧ u < w ∧ 0 ≤ v ∧ v < h := Iff.rfl

theorem resize_serial_cells (src : Image) (new_height new_width : Int)
    (hH : 0 ≤ new_height) (hW : 0 ≤ new_width) :
    (BilinearInterpolation.resize_serial src new_height new_width).WellFormed ∧
    (BilinearInterpolation.resize_serial src new_height new_width).width = new_width ∧
    (BilinearInterpolation.resize_serial src new_height new_width).height = new_height ∧
    ∀ i j, 0 ≤ i → i < new_width → 0 ≤ j → j < new_height →
      (BilinearInterpolation.resize_serial src new_height new_width).getPixel i j =
        BilinearInterpolation.interpolate src
          ((i : ℚ) * ((src.getWidth : ℚ) / (new_width : ℚ)))
          ((j : ℚ) * ((src.getHeight : ℚ) / (new_height : ℚ))) := by
  obtain ⟨hwf, hw, hh, hget⟩ := fill_rows
    (fun i j => BilinearInterpolation.interpolate src
      ((i : ℚ) * ((src.getWidth : ℚ) / (new_width : ℚ)))
      ((j : ℚ) * ((src.getHeight : ℚ) / (new_height : ℚ))))
    (Image.new new_height new_width) 0 new_height new_width (new_wellFormed _ _ hH hW)
  refine ⟨hwf, hw, hh, ?_⟩
  intro i j hi0 hi hj0 hj
  have h := hget i j
  rw [if_pos ⟨hj0, hj, hi0, hi, (new_inBounds _ _ _ _).mpr ⟨hi0, hi, hj0, hj⟩⟩] at h
  exact h

theorem resize_openmp_cells (src : Image) (new_height new_width : Int)
    (hH : 0 ≤ new_height) (hW : 0 ≤ new_width) :
    (BilinearInterpolation.resize_openmp src new_height new_width).WellFormed ∧
    (BilinearInterpolation.resize_openmp src new_height new_width).width = new_width ∧
    (BilinearInterpolation.resize_openmp src new_height new_width).height = new_height ∧
    ∀ i j, 0 ≤ i → i < new_width → 0 ≤ j → j < new_height →
      (BilinearInterpolation.resize_openmp src new_height new_width).getPixel i j =
        inlinePixel src ((src.getWidth : ℚ) / (new_width : ℚ))
          ((src.getHeight : ℚ) / (new_height : ℚ)) i j := by
  obtain ⟨hwf, hw, hh, hget⟩ := fill_rows
    (inlinePixel src ((src.getWidth : ℚ) / (new_width : ℚ))
      ((src.getHeight : ℚ) / (new_height : ℚ)))
    (Image.new new_height new_width) 0 new_height new_width (new_wellFormed _ _ hH hW)
  refine ⟨hwf, hw, hh, ?_⟩
  intro i j hi0 hi hj0 hj
  have h := hget i j
  rw [if_pos ⟨hj0, hj, hi0, hi, (new_inBounds _ _ _ _).mpr ⟨hi0, hi, hj0, hj⟩⟩] at h
  exact h

theorem resizeThreadTile_cells (src dst : Image) (start_j end_j new_width : Int)
    (scale_x scale_y : ℚ) (hwf : dst.WellFormed) :
    (resizeThreadTile src dst start_j end_j new_width scale_x scale_y).WellFormed ∧
    (resizeThreadTile src dst start_j end_j new_width scale_x scale_y).width = dst.width ∧
    (resizeThreadTile src dst start_j end_j new_width scale_x scale_y).height = dst.height ∧
    ∀ u v, (resizeThreadTile src dst start_j end_j new_width scale_x scale_y).getPixel u v =
      if start_j ≤ v ∧ v < end_j ∧ 0 ≤ u ∧ u < new_width ∧ dst.inBounds u v
      then inlinePixel src scale_x scale_y u v else dst.getPixel u v :=
  fill_rows (inlinePixel src scale_x scale_y) dst start_j end_j new_width hwf

theorem resizeTiles_cells (src : Image) (new_height new_width num_threads : Int)
    (hH : 0 ≤ new_height) (hW : 0 ≤ new_width) (hN : 1 ≤ num_threads) :
    (resizeTiles src new_height new_width num_threads).WellFormed ∧
    (resizeTiles src new_height new_width num_threads).width = new_width ∧
    (resizeTiles src new_height new_width num_threads).height = new_height ∧
    ∀ i j, 0 ≤ i → i < new_width → 0 ≤ j → j < new_height →
      (resizeTiles src new_height new_width num_threads).getPixel i j =
        inlinePixel src ((src.getWidth : ℚ) / (new_width : ℚ))
          ((src.getHeight : ℚ) / (new_height : ℚ)) i j := by
  have hinv := forLoop_invariant
    (fun t d => d.WellFormed ∧ d.width = new_width ∧ d.height = new_height ∧
      ∀ u v, 0 ≤ u → u < new_width → 0 ≤ v → v < new_height →
        (∃ s, 0 ≤ s ∧ s < t ∧ tileStart new_height num_threads s ≤ v ∧
          v < tileEnd new_height num_threads s) →
        d.getPixel u v = inlinePixel src ((src.getWidth : ℚ) / (new_width : ℚ))
          ((src.getHeight : ℚ) / (new_height : ℚ)) u v)
    0 num_threads
    (fun t dst =>
      resizeThreadTile src dst (tileStart new_height num_threads t)
        (tileEnd new_height num_threads t) new_width
        ((src.getWidth : ℚ) / (new_width : ℚ)) ((src.getHeight : ℚ) / (new_height : ℚ)))
    (Image.new new_height new_width) (by omega)
    ⟨new_wellFormed _ _ hH hW, rfl, rfl, by
      rintro u v _ _ _ _ ⟨s, hs0, hs1, _⟩
      omega⟩
    (by
      rintro t acc ht0 htN ⟨hawf, haw, hah, hget⟩
      obtain ⟨rwf, rw_, rh, rget⟩ := resizeThreadTile_cells src acc
        (tileStart new_height num_threads t) (tileEnd new_height num_threads t) new_width
        ((src.getWidth : ℚ) / (new_width : ℚ)) ((src.getHeight : ℚ) / (new_height : ℚ)) hawf
      refine ⟨rwf, by rw [rw_, haw], by rw [rh, hah], ?_⟩
      rintro u v hu0 hu hv0 hv ⟨s, hs0, hs1, hs2, hs3⟩
      rw [rget u v]
      by_cases hc : tileStart new_height num_threads t ≤ v ∧ v < tileEnd new_height num_threads t ∧
          0 ≤ u ∧ u < new_width ∧ acc.inBounds u v
      · rw [if_pos hc]
      · rw [if_neg hc]
        have hb : acc.inBounds u v := by
          unfold Image.inBounds; rw [haw, hah]; exact ⟨hu0, hu, hv0, hv⟩
        have hst : s ≠ t := by
          rintro rfl
          exact hc ⟨hs2, hs3, hu0, hu, hb⟩
        exact hget u v hu0 hu hv0 hv ⟨s, hs0, by omega, hs2, hs3⟩)
  obtain ⟨hwf, hw, hh, hget⟩ := hinv
  refine ⟨hwf, hw, hh, ?_⟩
  intro i j hi0 hi hj0 hj
  obtain ⟨t, ⟨ht0, htN, hts, hte⟩, _⟩ := tile_of_row new_height num_threads j hH hN hj0 hj
  exact hget i j hi0 hi hj0 hj ⟨t, ht0, htN, hts, hte⟩

theorem numThreads_pos (hardware_concurrency : Int) (h : 0 ≤ hardware_concurrency) :
    1 ≤ numThreads hardware_concurrency := by
  unfold numThreads
  split_ifs <;> omega


/-- C3: for new dimensions at least 1, `resize_serial` returns a grid of width
`new_width` and height `new_height` whose sample at every `(i, j)` of the
destination is the kernel applied to the source at
`(i * (srcWidth / new_width), j * (srcHeight / new_height))`, with exact
(rational) division. -/
theorem resize_serial_contract (src : Image) (new_height new_width : Int)
    (hH : 1 ≤ new_height) (hW : 1 ≤ new_width) :
    (BilinearInterpolation.resize_serial src new_height new_width).getWidth = new_width ∧
    (BilinearInterpolation.resize_serial src new_height new_width).getHeight = new_height ∧
    ∀ i j, 0 ≤ i → i < new_width → 0 ≤ j → j < new_height →
      (BilinearInterpolation.resize_serial src new_height new_width).getPixel i j =
        BilinearInterpolation.interpolate src
          ((i : ℚ) * ((src.getWidth : ℚ) / (new_width : ℚ)))
          ((j : ℚ) * ((src.getHeight : ℚ) / (new_height : ℚ))) := by
  obtain ⟨_, hw, hh, hget⟩ :=
    resize_serial_cells src new_height new_width (by omega) (by omega)
  exact ⟨hw, hh, hget⟩

/-- C3 at a concrete input: the sample grid resized to width 6 and height 3. -/
theorem resize_serial_contract_witness :
    (BilinearInterpolation.resize_serial grid4 3 6).getWidth = 6 ∧
    (BilinearInterpolation.resize_serial grid4 3 6).getHeight = 3 ∧
    ∀ i j, 0 ≤ i → i < (6 : Int) → 0 ≤ j → j < (3 : Int) →
      (BilinearInterpolation.resize_serial grid4 3 6).getPixel i j =
        BilinearInterpolation.interpolate grid4
          ((i : ℚ) * ((grid4.getWidth : ℚ) / ((6 : Int) : ℚ)))
          ((j : ℚ) * ((grid4.getHeight : ℚ) / ((3 : Int) : ℚ))) :=
  resize_serial_contract grid4 3 6 (by decide) (by decide)

theorem inlinePixel_grid4_3_0 :
    inlinePixel grid4 ((grid4.getWidth : ℚ) / ((4 : Int) : ℚ))
      ((grid4.getHeight : ℚ) / ((4 : Int) : ℚ)) 3 0 = ⟨70, 70, 70, 255⟩ := by
  have ht : inlineTaps grid4 3 0 = ⟨3, 0, 3, 1, 0, 0⟩ := by
    simp [inlineTaps, grid4, Image.getWidth, Image.getHeight]
  have hx : (((3 : Int) : ℚ)) * ((grid4.getWidth : ℚ) / ((4 : Int) : ℚ)) = 3 := by
    simp [grid4, Image.getWidth]
  have hy : (((0 : Int) : ℚ)) * ((grid4.getHeight : ℚ) / ((4 : Int) : ℚ)) = 0 := by
    simp
  unfold inlinePixel
  simp only [hx, hy, ht]
  rw [blend_zero_offsets]
  exact getPixel_grid4_3_0

/-- C1, the code at the failing input: on the identity resize `4 x 4 -> 4 x 4`
of the sample grid the three strategies return grids of the same dimensions,
but at the destination pixel `(3, 0)` the serial strategy writes `69.98` while
the OpenMP and threading strategies write `70`; the difference `0.02` exceeds
the tolerance `1e-4`. -/
theorem strategies_differ_on_identity_resize :
    (BilinearInterpolation.resize_serial grid4 4 4).getWidth = 4 ∧
    (BilinearInterpolation.resize_serial grid4 4 4).getHeight = 4 ∧
    (BilinearInterpolation.resize_openmp grid4 4 4).getWidth = 4 ∧
    (BilinearInterpolation.resize_openmp grid4 4 4).getHeight = 4 ∧
    (BilinearInterpolation.resize_threading 0 grid4 4 4).getWidth = 4 ∧
    (BilinearInterpolation.resize_threading 0 grid4 4 4).getHeight = 4 ∧
    (BilinearInterpolation.resize_serial grid4 4 4).getPixel 3 0 =
      ⟨6998 / 100, 6998 / 100, 6998 / 100, 255⟩ ∧
    (BilinearInterpolation.resize_openmp grid4 4 4).getPixel 3 0 = ⟨70, 70, 70, 255⟩ ∧
    (BilinearInterpolation.resize_threading 0 grid4 4 4).getPixel 3 0 = ⟨70, 70, 70, 255⟩ ∧
    (1 : ℚ) / 10000 <
      |((BilinearInterpolation.resize_serial grid4 4 4).getPixel 3 0).r -
        ((BilinearInterpolation.resize_openmp grid4 4 4).getPixel 3 0).r| := by
  obtain ⟨_, sw, sh, sget⟩ := resize_serial_cells grid4 4 4 (by decide) (by decide)
  obtain ⟨_, ow, oh, oget⟩ := resize_openmp_cells grid4 4 4 (by decide) (by decide)
  obtain ⟨_, tw, th, tget⟩ := resizeTiles_cells grid4 4 4 (numThreads 0)
    (by decide) (by decide) (by decide)
  have hs : (BilinearInterpolation.resize_serial grid4 4 4).getPixel 3 0 =
      ⟨6998 / 100, 6998 / 100, 6998 / 100, 255⟩ := by
    rw [sget 3 0 (by decide) (by decide) (by decide) (by decide)]
    have hx : (((3 : Int) : ℚ)) * ((grid4.getWidth : ℚ) / ((4 : Int) : ℚ)) = 3 := by
      simp [grid4, Image.getWidth]
    have hy : (((0 : Int) : ℚ)) * ((grid4.getHeight : ℚ) / ((4 : Int) : ℚ)) = 0 := by
      simp
    rw [hx, hy]
    exact interp_grid4_3_0
  have ho : (BilinearInterpolation.resize_openmp grid4 4 4).getPixel 3 0 = ⟨70, 70, 70, 255⟩ := by
    rw [oget 3 0 (by decide) (by decide) (by decide) (by decide)]
    exact inlinePixel_grid4_3_0
  have hthr : (BilinearInterpolation.resize_threading 0 grid4 4 4).getPixel 3 0 =
      ⟨70, 70, 70, 255⟩ := by
    unfold BilinearInterpolation.resize_threading
    rw [tget 3 0 (by decide) (by decide) (by decide) (by decide)]
    exact inlinePixel_grid4_3_0
  refine ⟨sw, sh, ow, oh, tw, th, hs, ho, hthr, ?_⟩
  rw [hs, ho]
  have habs : |((6998 : ℚ) / 100 - 70)| = 1 / 50 := by
    rw [abs_of_neg (by norm_num)]
    norm_num
  rw [habs]
  norm_num


theorem console_taps_mid : console.taps console.testImg (3 / 2) (3 / 2) = ⟨1, 1, 2, 2, 1 / 2, 1 / 2⟩ := by
  have hfl : ⌊(3 / 2 : ℚ)⌋ = 1 := by norm_num [Int.floor_eq_iff]
  simp only [console.taps, console.testImg, hfl]
  norm_num

theorem singlefile_taps_mid :
    singlefile.taps singlefile.sourceImage (3 / 2) (3 / 2) = ⟨1, 1, 2, 2, 1 / 2, 1 / 2⟩ := by
  have hfl : ⌊(3 / 2 : ℚ)⌋ = 1 := by norm_num [Int.floor_eq_iff]
  have hcl : singlefile.clamp (3 / 2) 0 (((4 : Int) : ℚ) - 1001 / 1000) = 3 / 2 := by
    unfold singlefile.clamp
    norm_num
  simp only [singlefile.taps, singlefile.sourceImage, singlefile.Image.getWidth,
    singlefile.Image.getHeight, hcl, hfl]
  norm_num

theorem weights_half : weights (1 / 2) (1 / 2) = ⟨1 / 4, 1 / 4, 1 / 4, 1 / 4⟩ := by
  simp only [weights]
  norm_num

/-- C9: on the `4 x 4` sample grid, interpolating at `(1.5, 1.5)` uses the four
neighbours `(1,1)`, `(2,1)`, `(1,2)`, `(2,2)` with values `60`, `80`, `90`,
`110`, gives each the weight `0.25`, and returns `85` (not `100`), in the
console demo kernel and in the single-file kernel alike. -/
theorem scenario_midpoint_is_85 :
    (console.taps console.testImg (3 / 2) (3 / 2) = ⟨1, 1, 2, 2, 1 / 2, 1 / 2⟩ ∧
      console.testImg.at_ 1 1 = 60 ∧ console.testImg.at_ 2 1 = 80 ∧
      console.testImg.at_ 1 2 = 90 ∧ console.testImg.at_ 2 2 = 110 ∧
      weights (1 / 2) (1 / 2) = ⟨1 / 4, 1 / 4, 1 / 4, 1 / 4⟩ ∧
      console.bilinearInterpolate console.testImg (3 / 2) (3 / 2) = 85 ∧
      console.bilinearInterpolate console.testImg (3 / 2) (3 / 2) ≠ 100) ∧
    (singlefile.taps singlefile.sourceImage (3 / 2) (3 / 2) = ⟨1, 1, 2, 2, 1 / 2, 1 / 2⟩ ∧
      singlefile.sourceImage.getPixel 1 1 = some (singlefile.Pixel.gray 60) ∧
      singlefile.sourceImage.getPixel 2 1 = some (singlefile.Pixel.gray 80) ∧
      singlefile.sourceImage.getPixel 1 2 = some (singlefile.Pixel.gray 90) ∧
      singlefile.sourceImage.getPixel 2 2 = some (singlefile.Pixel.gray 110) ∧
      singlefile.bilinearInterpolate singlefile.sourceImage (3 / 2) (3 / 2) =
        some (singlefile.Pixel.gray 85)) := by
  have c11 : console.testImg.at_ 1 1 = 60 := by simp [console.Image.at_, console.testImg]
  have c21 : console.testImg.at_ 2 1 = 80 := by simp [console.Image.at_, console.testImg]
  have c12 : console.testImg.at_ 1 2 = 90 := by simp [console.Image.at_, console.testImg]
  have c22 : console.testImg.at_ 2 2 = 110 := by simp [console.Image.at_, console.testImg]
  have s11 : singlefile.sourceImage.getPixel 1 1 = some (singlefile.Pixel.gray 60) := by
    simp [singlefile.Image.getPixel, singlefile.sourceImage]
  have s21 : singlefile.sourceImage.getPixel 2 1 = some (singlefile.Pixel.gray 80) := by
    simp [singlefile.Image.getPixel, singlefile.sourceImage]
  have s12 : singlefile.sourceImage.getPixel 1 2 = some (singlefile.Pixel.gray 90) := by
    simp [singlefile.Image.getPixel, singlefile.sourceImage]
  have s22 : singlefile.sourceImage.getPixel 2 2 = some (singlefile.Pixel.gray 110) := by
    simp [singlefile.Image.getPixel, singlefile.sourceImage]
  have hc : console.bilinearInterpolate console.testImg (3 / 2) (3 / 2) = 85 := by
    unfold console.bilinearInterpolate
    simp only [console_taps_mid, weights_half, c11, c21, c12, c22]
    norm_num
  have hsf : singlefile.bilinearInterpolate singlefile.sourceImage (3 / 2) (3 / 2) =
      some (singlefile.Pixel.gray 85) := by
    unfold singlefile.bilinearInterpolate
    simp only [singlefile_taps_mid, weights_half, s11, s21, s12, s22, singlefile.Pixel.gray,
      Option.pure_def, Option.bind_eq_bind, Option.some_bind]
    norm_num
  refine ⟨⟨console_taps_mid, c11, c21, c12, c22, weights_half, hc, ?_⟩,
    ⟨singlefile_taps_mid, s11, s21, s12, s22, hsf⟩⟩
  rw [hc]
  norm_num


/-- C11, the code at the failing input: when the three measured times are
`0 ms` (a resize that finishes within a millisecond), both speedup divisions of
`benchmark` have a zero divisor and yield no number; the same happens to
`speedup_openmp` whenever `time_openmp = 0`, whatever the serial time. -/
theorem speedup_division_by_zero :
    (BilinearInterpolation.benchmarkResult 0 0 0).speedup_openmp = none ∧
    (BilinearInterpolation.benchmarkResult 0 0 0).speedup_threading = none ∧
    (BilinearInterpolation.benchmarkResult 3 0 1).speedup_openmp = none ∧
    (BilinearInterpolation.benchmarkResult 3 0 1).speedup_threading = some 3 := by
  refine ⟨?_, ?_, ?_, ?_⟩ <;>
    simp [BilinearInterpolation.benchmarkResult, floatQuotient]

theorem getPixel_setPixel_of_ne (img : Image) (x y : Int) (p : Pixel) (u v : Int)
    (hne : ¬ (u = x ∧ v = y)) :
    (img.setPixel x y p).getPixel u v = img.getPixel u v := by
  by_cases hb : img.inBounds x y
  · by_cases hb2 : img.inBounds u v
    · have hb2' : (img.setPixel x y p).inBounds u v := (setPixel_inBounds img x y p u v).mpr hb2
      have hidx : (img.setPixel x y p).index u v = img.index u v := by
        unfold Image.index; rw [setPixel_width]
      have hdata : (img.setPixel x y p).data = img.data.set (img.index x y) p := by
        unfold Image.setPixel; rw [if_pos hb]
      have hidxne : img.index x y ≠ img.index u v := by
        intro heq
        have := index_injective img x y u v hb hb2 heq
        exact hne ⟨this.1.symm, this.2.symm⟩
      unfold Image.getPixel
      rw [if_pos hb2', if_pos hb2, hidx, hdata]
      simp only [List.getD_eq_getElem?_getD, List.getElem?_set_ne hidxne]
    · have hb2' : ¬ (img.setPixel x y p).inBounds u v := by
        rw [setPixel_inBounds]; exact hb2
      unfold Image.getPixel
      rw [if_neg hb2', if_neg hb2]
  · have : img.setPixel x y p = img := by
      unfold Image.setPixel; rw [if_neg hb]
    rw [this]

theorem row_frame (f : Int → Int → Pixel) (dst : Image) (j n : Int) :
    (forLoop 0 n (fun i d => d.setPixel i j (f i j)) dst).width = dst.width ∧
    (forLoop 0 n (fun i d => d.setPixel i j (f i j)) dst).height = dst.height ∧
    ∀ u v, ¬ (v = j ∧ 0 ≤ u ∧ u < n) →
      (forLoop 0 n (fun i d => d.setPixel i j (f i j)) dst).getPixel u v = dst.getPixel u v := by
  by_cases hn : 0 ≤ n
  · refine forLoop_invariant
      (fun k d => d.width = dst.width ∧ d.height = dst.height ∧
        ∀ u v, ¬ (v = j ∧ 0 ≤ u ∧ u < n) → d.getPixel u v = dst.getPixel u v)
      0 n _ dst hn ⟨rfl, rfl, fun _ _ _ => rfl⟩ ?_
    rintro k acc hk0 hkn ⟨haw, hah, hget⟩
    refine ⟨by rw [setPixel_width, haw], by rw [setPixel_height, hah], ?_⟩
    intro u v hout
    rw [getPixel_setPixel_of_ne acc k j _ u v (by rintro ⟨rfl, rfl⟩; exact hout ⟨rfl, hk0, hkn⟩)]
    exact hget u v hout
  · rw [forLoop_of_le 0 n _ dst (by omega)]
    exact ⟨rfl, rfl, fun _ _ _ => rfl⟩

theorem rows_frame (f : Int → Int → Pixel) (dst : Image) (lo hi n : Int) :
    (forLoop lo hi (fun j d => forLoop 0 n (fun i d => d.setPixel i j (f i j)) d) dst).width
      = dst.width ∧
    (forLoop lo hi (fun j d => forLoop 0 n (fun i d => d.setPixel i j (f i j)) d) dst).height
      = dst.height ∧
    ∀ u v, ¬ (lo ≤ v ∧ v < hi ∧ 0 ≤ u ∧ u < n) →
      (forLoop lo hi (fun j d => forLoop 0 n (fun i d => d.setPixel i j (f i j)) d)
        dst).getPixel u v = dst.getPixel u v := by
  by_cases hn : lo ≤ hi
  · refine forLoop_invariant
      (fun k d => d.width = dst.width ∧ d.height = dst.height ∧
        ∀ u v, ¬ (lo ≤ v ∧ v < hi ∧ 0 ≤ u ∧ u < n) → d.getPixel u v = dst.getPixel u v)
      lo hi _ dst hn ⟨rfl, rfl, fun _ _ _ => rfl⟩ ?_
    rintro k acc hk0 hkn ⟨haw, hah, hget⟩
    obtain ⟨rw_, rh, rget⟩ := row_frame f acc k n
    refine ⟨by rw [rw_, haw], by rw [rh, hah], ?_⟩
    intro u v hout
    rw [rget u v (by rintro ⟨rfl, hu0, hun⟩; exact hout ⟨hk0, hkn, hu0, hun⟩)]
    exact hget u v hout
  · rw [forLoop_of_le lo hi _ dst (by omega)]
    exact ⟨rfl, rfl, fun _ _ _ => rfl⟩

/-- C13: the tile worker `resizeThreadTile` leaves the dimensions of the
destination as they are and changes only destination cells `(i, j)` with
`start_j ≤ j < end_j` and `0 ≤ i < new_width`: every other destination cell, in
particular every cell of a row outside `[start_j, end_j)`, reads as before. The
source is an argument that is only read; the worker returns the destination
alone. -/
theorem resizeThreadTile_frame :
    (∀ (src dst : Image) (start_j end_j new_width : Int) (scale_x scale_y : ℚ) (u v : Int),
      ¬ (start_j ≤ v ∧ v < end_j ∧ 0 ≤ u ∧ u < new_width) →
      (resizeThreadTile src dst start_j end_j new_width scale_x scale_y).getPixel u v =
        dst.getPixel u v) ∧
    (∀ (src dst : Image) (start_j end_j new_width : Int) (scale_x scale_y : ℚ) (u v : Int),
      ¬ (start_j ≤ v ∧ v < end_j) →
      (resizeThreadTile src dst start_j end_j new_width scale_x scale_y).getPixel u v =
        dst.getPixel u v) ∧
    (∀ (src dst : Image) (start_j end_j new_width : Int) (scale_x scale_y : ℚ),
      (resizeThreadTile src dst start_j end_j new_width scale_x scale_y).getWidth = dst.getWidth ∧
      (resizeThreadTile src dst start_j end_j new_width scale_x scale_y).getHeight =
        dst.getHeight) := by
  refine ⟨?_, ?_, ?_⟩
  · intro src dst start_j end_j new_width scale_x scale_y u v hout
    exact (rows_frame (inlinePixel src scale_x scale_y) dst start_j end_j new_width).2.2 u v hout
  · intro src dst start_j end_j new_width scale_x scale_y u v hout
    exact (rows_frame (inlinePixel src scale_x scale_y) dst start_j end_j new_width).2.2 u v
      (fun h => hout ⟨h.1, h.2.1⟩)
  · intro src dst start_j end_j new_width scale_x scale_y
    exact ⟨(rows_frame (inlinePixel src scale_x scale_y) dst start_j end_j new_width).1,
      (rows_frame (inlinePixel src scale_x scale_y) dst start_j end_j new_width).2.1⟩


theorem taps_of_same_dims (image1 image2 : Image) (x y : ℚ)
    (hw : image1.getWidth = image2.getWidth) (hh : image1.getHeight = image2.getHeight) :
    BilinearInterpolation.taps image1 x y = BilinearInterpolation.taps image2 x y := by
  simp only [BilinearInterpolation.taps, hw, hh]

/-- C14: if two grids of equal dimensions agree on the channel `r` at every
pixel, the kernel gives samples that agree on `r` at every coordinate, whatever
the other channels hold (and likewise for `g`, `b` and `a`); every channel of the
result is the same weighted sum, with the same four weights, of that channel of
the four neighbours. -/
theorem interpolate_channel_independence (image1 image2 : Image)
    (hw : image1.getWidth = image2.getWidth) (hh : image1.getHeight = image2.getHeight) :
    ((∀ u v, (image1.getPixel u v).r = (image2.getPixel u v).r) →
      ∀ x y, (BilinearInterpolation.interpolate image1 x y).r =
        (BilinearInterpolation.interpolate image2 x y).r) ∧
    ((∀ u v, (image1.getPixel u v).g = (image2.getPixel u v).g) →
      ∀ x y, (BilinearInterpolation.interpolate image1 x y).g =
        (BilinearInterpolation.interpolate image2 x y).g) ∧
    ((∀ u v, (image1.getPixel u v).b = (image2.getPixel u v).b) →
      ∀ x y, (BilinearInterpolation.interpolate image1 x y).b =
        (BilinearInterpolation.interpolate image2 x y).b) ∧
    ((∀ u v, (image1.getPixel u v).a = (image2.getPixel u v).a) →
      ∀ x y, (BilinearInterpolation.interpolate image1 x y).a =
        (BilinearInterpolation.interpolate image2 x y).a) ∧
    (∀ x y,
      (BilinearInterpolation.interpolate image1 x y).r =
        weightedSum (weights (BilinearInterpolation.taps image1 x y).fx
            (BilinearInterpolation.taps image1 x y).fy)
          (image1.getPixel (BilinearInterpolation.taps image1 x y).x0
            (BilinearInterpolation.taps image1 x y).y0).r
          (image1.getPixel (BilinearInterpolation.taps image1 x y).x1
            (BilinearInterpolation.taps image1 x y).y0).r
          (image1.getPixel (BilinearInterpolation.taps image1 x y).x0
            (BilinearInterpolation.taps image1 x y).y1).r
          (image1.getPixel (BilinearInterpolation.taps image1 x y).x1
            (BilinearInterpolation.taps image1 x y).y1).r ∧
      (BilinearInterpolation.interpolate image1 x y).g =
        weightedSum (weights (BilinearInterpolation.taps image1 x y).fx
            (BilinearInterpolation.taps image1 x y).fy)
          (image1.getPixel (BilinearInterpolation.taps image1 x y).x0
            (BilinearInterpolation.taps image1 x y).y0).g
          (image1.getPixel (BilinearInterpolation.taps image1 x y).x1
            (BilinearInterpolation.taps image1 x y).y0).g
          (image1.getPixel (BilinearInterpolation.taps image1 x y).x0
            (BilinearInterpolation.taps image1 x y).y1).g
          (image1.getPixel (BilinearInterpolation.taps image1 x y).x1
            (BilinearInterpolation.taps image1 x y).y1).g ∧
      (BilinearInterpolation.interpolate image1 x y).b =
        weightedSum (weights (BilinearInterpolation.taps image1 x y).fx
            (BilinearInterpolation.taps image1 x y).fy)
          (image1.getPixel (BilinearInterpolation.taps image1 x y).x0
            (BilinearInterpolation.taps image1 x y).y0).b
          (image1.getPixel (BilinearInterpolation.taps image1 x y).x1
            (BilinearInterpolation.taps image1 x y).y0).b
          (image1.getPixel (BilinearInterpolation.taps image1 x y).x0
            (BilinearInterpolation.taps image1 x y).y1).b
          (image1.getPixel (BilinearInterpolation.taps image1 x y).x1
            (BilinearInterpolation.taps image1 x y).y1).b ∧
      (BilinearInterpolation.interpolate image1 x y).a =
        weightedSum (weights (BilinearInterpolation.taps image1 x y).fx
            (BilinearInterpolation.taps image1 x y).fy)
          (image1.getPixel (BilinearInterpolation.taps image1 x y).x0
            (BilinearInterpolation.taps image1 x y).y0).a
          (image1.getPixel (BilinearInterpolation.taps image1 x y).x1
            (BilinearInterpolation.taps image1 x y).y0).a
          (image1.getPixel (BilinearInterpolation.taps image1 x y).x0
            (BilinearInterpolation.taps image1 x y).y1).a
          (image1.getPixel (BilinearInterpolation.taps image1 x y).x1
            (BilinearInterpolation.taps image1 x y).y1).a) := by
  have ht : ∀ x y, BilinearInterpolation.taps image1 x y = BilinearInterpolation.taps image2 x y :=
    fun x y => taps_of_same_dims image1 image2 x y hw hh
  refine ⟨?_, ?_, ?_, ?_, fun x y => ⟨rfl, rfl, rfl, rfl⟩⟩
  · intro hagree x y
    simp only [BilinearInterpolation.interpolate, blend, ht x y, hagree]
  · intro hagree x y
    simp only [BilinearInterpolation.interpolate, blend, ht x y, hagree]
  · intro hagree x y
    simp only [BilinearInterpolation.interpolate, blend, ht x y, hagree]
  · intro hagree x y
    simp only [BilinearInterpolation.interpolate, blend, ht x y, hagree]

theorem grid4Recoloured_red (u v : Int) :
    (grid4.getPixel u v).r = (grid4Recoloured.getPixel u v).r := by
  have hdata : grid4Recoloured.data = grid4.data.map (fun p => ⟨p.r, 0, 1, 2⟩) := by
    simp [grid4Recoloured, grid4]
  have hb : grid4Recoloured.inBounds u v ↔ grid4.inBounds u v := Iff.rfl
  have hi : grid4Recoloured.index u v = grid4.index u v := rfl
  unfold Image.getPixel
  by_cases h : grid4.inBounds u v
  · rw [if_pos h, if_pos (hb.mpr h), hi, hdata]
    simp only [List.getD_eq_getElem?_getD, List.getElem?_map]
    cases grid4.data[grid4.index u v]? <;> simp [Pixel.default]
  · rw [if_neg h, if_neg (fun h2 => h (hb.mp h2))]

/-- C14 at a concrete input: the sample grid and its recoloured copy, which
agree on `r` only, at the coordinate `(1.5, 1.25)`. -/
theorem interpolate_channel_independence_witness :
    (BilinearInterpolation.interpolate grid4 (3 / 2) (5 / 4)).r =
      (BilinearInterpolation.interpolate grid4Recoloured (3 / 2) (5 / 4)).r :=
  (interpolate_channel_independence grid4 grid4Recoloured rfl rfl).1 grid4Recoloured_red
    (3 / 2) (5 / 4)

theorem blend_of_x1_eq_x0 (image : Image) (t : Taps) (h : t.x1 = t.x0) :
    blend image t =
      ⟨(1 - t.fy) * (image.getPixel t.x0 t.y0).r + t.fy * (image.getPixel t.x0 t.y1).r,
       (1 - t.fy) * (image.getPixel t.x0 t.y0).g + t.fy * (image.getPixel t.x0 t.y1).g,
       (1 - t.fy) * (image.getPixel t.x0 t.y0).b + t.fy * (image.getPixel t.x0 t.y1).b,
       (1 - t.fy) * (image.getPixel t.x0 t.y0).a + t.fy * (image.getPixel t.x0 t.y1).a⟩ := by
  simp only [blend, weights, weightedSum, h, Pixel.mk.injEq]
  refine ⟨?_, ?_, ?_, ?_⟩ <;> ring

theorem blend_of_y1_eq_y0 (image : Image) (t : Taps) (h : t.y1 = t.y0) :
    blend image t =
      ⟨(1 - t.fx) * (image.getPixel t.x0 t.y0).r + t.fx * (image.getPixel t.x1 t.y0).r,
       (1 - t.fx) * (image.getPixel t.x0 t.y0).g + t.fx * (image.getPixel t.x1 t.y0).g,
       (1 - t.fx) * (image.getPixel t.x0 t.y0).b + t.fx * (image.getPixel t.x1 t.y0).b,
       (1 - t.fx) * (image.getPixel t.x0 t.y0).a + t.fx * (image.getPixel t.x1 t.y0).a⟩ := by
  simp only [blend, weights, weightedSum, h, Pixel.mk.injEq]
  refine ⟨?_, ?_, ?_, ?_⟩ <;> ring

/-- C18: whenever the right neighbour index coincides with the left one
(`x1 = x0`, as for `width = 1`), the result of the library kernel and of the
inline kernel is, in every channel and for every `fx`,
`(1 - fy) * f(x0, y0) + fy * f(x0, y1)`, so the total weight stays 1;
symmetrically, when `y1 = y0` the result is `(1 - fx) * f(x0, y0) + fx * f(x1, y0)`;
and for `fx = fy = 0` the weights are `w00 = 1`, `w10 = w01 = w11 = 0`. -/
theorem border_weight_not_double_counted :
    (∀ (image : Image) (x y : ℚ),
      let t := BilinearInterpolation.taps image x y
      t.x1 = t.x0 →
      BilinearInterpolation.interpolate image x y =
        ⟨(1 - t.fy) * (image.getPixel t.x0 t.y0).r + t.fy * (image.getPixel t.x0 t.y1).r,
         (1 - t.fy) * (image.getPixel t.x0 t.y0).g + t.fy * (image.getPixel t.x0 t.y1).g,
         (1 - t.fy) * (image.getPixel t.x0 t.y0).b + t.fy * (image.getPixel t.x0 t.y1).b,
         (1 - t.fy) * (image.getPixel t.x0 t.y0).a + t.fy * (image.getPixel t.x0 t.y1).a⟩) ∧
    (∀ (image : Image) (x y : ℚ),
      let t := BilinearInterpolation.taps image x y
      t.y1 = t.y0 →
      BilinearInterpolation.interpolate image x y =
        ⟨(1 - t.fx) * (image.getPixel t.x0 t.y0).r + t.fx * (image.getPixel t.x1 t.y0).r,
         (1 - t.fx) * (image.getPixel t.x0 t.y0).g + t.fx * (image.getPixel t.x1 t.y0).g,
         (1 - t.fx) * (image.getPixel t.x0 t.y0).b + t.fx * (image.getPixel t.x1 t.y0).b,
         (1 - t.fx) * (image.getPixel t.x0 t.y0).a + t.fx * (image.getPixel t.x1 t.y0).a⟩) ∧
    (∀ (src : Image) (scale_x scale_y : ℚ) (i j : Int),
      let t := inlineTaps src ((i : ℚ) * scale_x) ((j : ℚ) * scale_y)
      t.x1 = t.x0 →
      inlinePixel src scale_x scale_y i j =
        ⟨(1 - t.fy) * (src.getPixel t.x0 t.y0).r + t.fy * (src.getPixel t.x0 t.y1).r,
         (1 - t.fy) * (src.getPixel t.x0 t.y0).g + t.fy * (src.getPixel t.x0 t.y1).g,
         (1 - t.fy) * (src.getPixel t.x0 t.y0).b + t.fy * (src.getPixel t.x0 t.y1).b,
         (1 - t.fy) * (src.getPixel t.x0 t.y0).a + t.fy * (src.getPixel t.x0 t.y1).a⟩) ∧
    (∀ (src : Image) (scale_x scale_y : ℚ) (i j : Int),
      let t := inlineTaps src ((i : ℚ) * scale_x) ((j : ℚ) * scale_y)
      t.y1 = t.y0 →
      inlinePixel src scale_x scale_y i j =
        ⟨(1 - t.fx) * (src.getPixel t.x0 t.y0).r + t.fx * (src.getPixel t.x1 t.y0).r,
         (1 - t.fx) * (src.getPixel t.x0 t.y0).g + t.fx * (src.getPixel t.x1 t.y0).g,
         (1 - t.fx) * (src.getPixel t.x0 t.y0).b + t.fx * (src.getPixel t.x1 t.y0).b,
         (1 - t.fx) * (src.getPixel t.x0 t.y0).a + t.fx * (src.getPixel t.x1 t.y0).a⟩) ∧
    (∀ (image : Image) (x y : ℚ), image.getWidth = 1 →
      (BilinearInterpolation.taps image x y).x1 = (BilinearInterpolation.taps image x y).x0) ∧
    weights 0 0 = ⟨1, 0, 0, 0⟩ := by
  refine ⟨?_, ?_, ?_, ?_, ?_, ?_⟩
  · intro image x y t h
    exact blend_of_x1_eq_x0 image t h
  · intro image x y t h
    exact blend_of_y1_eq_y0 image t h
  · intro src scale_x scale_y i j t h
    exact blend_of_x1_eq_x0 src t h
  · intro src scale_x scale_y i j t h
    exact blend_of_y1_eq_y0 src t h
  · intro image x y hw
    obtain ⟨h0, h1⟩ := floor_clampCoord_bounds x image.getWidth (by omega)
    simp only [BilinearInterpolation.taps]
    omega
  · simp [weights]


theorem foldl_fst {α β γ : Type} (g : γ → α → α) (l : γ → α × β → β) (ks : List γ) (s : α × β) :
    (ks.foldl (fun (st : α × β) (k : γ) => (g k st.1, l k st)) s).1 =
      ks.foldl (fun (a : α) (k : γ) => g k a) s.1 := by
  induction ks generalizing s with
  | nil => rfl
  | cons k rest ih =>
    simp only [List.foldl_cons]
    rw [ih]

theorem forLoop_fst {α β : Type} (lo hi : Int) (g : Int → α → α) (l : Int → α × β → β)
    (s : α × β) :
    (forLoop lo hi (fun j (st : α × β) => (g j st.1, l j st)) s).1 = forLoop lo hi g s.1 := by
  unfold forLoop
  exact foldl_fst (fun (k : Nat) => g (lo + (k : Int))) (fun (k : Nat) => l (lo + (k : Int))) _ s

/-- C15: in the demo program the grids returned by `BilinearDemo::resize_openmp`
and `BilinearDemo::resize_threading` equal the grid returned by
`BilinearDemo::resize_serial`, for every source, all new dimensions and every
value of `showProgress` of each call; only the progress output differs. -/
theorem demo_resize_variants_same_grid (src : demo.Image) (new_h new_w : Int)
    (showSerial showOpenmp showThreading : Bool) :
    (demo.BilinearDemo.resize_openmp src new_h new_w showOpenmp).1 =
      (demo.BilinearDemo.resize_serial src new_h new_w showSerial).1 ∧
    (demo.BilinearDemo.resize_threading src new_h new_w showThreading).1 =
      (demo.BilinearDemo.resize_serial src new_h new_w showSerial).1 ∧
    (∀ i j, ((demo.BilinearDemo.resize_openmp src new_h new_w showOpenmp).1).getPixel i j =
      ((demo.BilinearDemo.resize_serial src new_h new_w showSerial).1).getPixel i j) ∧
    (∀ i j, ((demo.BilinearDemo.resize_threading src new_h new_w showThreading).1).getPixel i j =
      ((demo.BilinearDemo.resize_serial src new_h new_w showSerial).1).getPixel i j) := by
  have hs : ∀ sp, (demo.BilinearDemo.resize_serial src new_h new_w sp).1 =
      forLoop 0 new_h (fun j (dst : demo.Image) =>
        forLoop 0 new_w (fun i dst =>
          dst.setPixel i j (demo.BilinearDemo.interpolate src
            ((i : ℚ) * ((src.getWidth : ℚ) / (new_w : ℚ)))
            ((j : ℚ) * ((src.getHeight : ℚ) / (new_h : ℚ))))) dst)
        (demo.Image.new new_h new_w) := by
    intro sp
    simp only [demo.BilinearDemo.resize_serial]
    rw [forLoop_fst]
  have ho : ∀ sp, (demo.BilinearDemo.resize_openmp src new_h new_w sp).1 =
      forLoop 0 new_h (fun j (dst : demo.Image) =>
        forLoop 0 new_w (fun i dst =>
          dst.setPixel i j (demo.BilinearDemo.interpolate src
            ((i : ℚ) * ((src.getWidth : ℚ) / (new_w : ℚ)))
            ((j : ℚ) * ((src.getHeight : ℚ) / (new_h : ℚ))))) dst)
        (demo.Image.new new_h new_w) := by
    intro sp
    simp only [demo.BilinearDemo.resize_openmp]
    rw [forLoop_fst]
  have ht : ∀ sp, (demo.BilinearDemo.resize_threading src new_h new_w sp).1 =
      forLoop 0 new_h (fun j (dst : demo.Image) =>
        forLoop 0 new_w (fun i dst =>
          dst.setPixel i j (demo.BilinearDemo.interpolate src
            ((i : ℚ) * ((src.getWidth : ℚ) / (new_w : ℚ)))
            ((j : ℚ) * ((src.getHeight : ℚ) / (new_h : ℚ))))) dst)
        (demo.Image.new new_h new_w) := by
    intro sp
    simp only [demo.BilinearDemo.resize_threading]
    rw [forLoop_fst]
  have e1 : (demo.BilinearDemo.resize_openmp src new_h new_w showOpenmp).1 =
      (demo.BilinearDemo.resize_serial src new_h new_w showSerial).1 := by
    rw [ho, hs]
  have e2 : (demo.BilinearDemo.resize_threading src new_h new_w showThreading).1 =
      (demo.BilinearDemo.resize_serial src new_h new_w showSerial).1 := by
    rw [ht, hs]
  exact ⟨e1, e2, fun i j => by rw [e1], fun i j => by rw [e2]⟩

/-- C16, the code at the failing input: on an image of width 1 and height 1 the
clamp of step 1 of the single-file kernel is `clamp(x, 0, -0.001)`, which sends
the coordinate `(0, 0)` to `(-0.001, -0.001)`; the neighbour indices are
`x0 = y0 = -1`, the first read is at buffer index `-2`, outside the buffer, and
the kernel has no defined result. -/
theorem singlefile_kernel_reads_outside_on_width_one :
    (singlefile.Image.new 1 1).getWidth = 1 ∧ (singlefile.Image.new 1 1).getHeight = 1 ∧
    (singlefile.Image.new 1 1).data.length = 1 ∧
    singlefile.clamp 0 0 (((singlefile.Image.new 1 1).getWidth : ℚ) - 1001 / 1000)
      = -1 / 1000 ∧
    (singlefile.taps (singlefile.Image.new 1 1) 0 0).x0 = -1 ∧
    (singlefile.taps (singlefile.Image.new 1 1) 0 0).y0 = -1 ∧
    (singlefile.taps (singlefile.Image.new 1 1) 0 0).y0 * (singlefile.Image.new 1 1).width +
      (singlefile.taps (singlefile.Image.new 1 1) 0 0).x0 = -2 ∧
    (singlefile.Image.new 1 1).getPixel (-1) (-1) = none ∧
    singlefile.bilinearInterpolate (singlefile.Image.new 1 1) 0 0 = none := by
  have hcl : singlefile.clamp 0 0 (((1 : Int) : ℚ) - 1001 / 1000) = -1 / 1000 := by
    unfold singlefile.clamp
    norm_num
  have hfl : ⌊(-1 / 1000 : ℚ)⌋ = -1 := by
    rw [Int.floor_eq_iff]
    norm_num
  have hx0 : (singlefile.taps (singlefile.Image.new 1 1) 0 0).x0 = -1 := by
    simp only [singlefile.taps, singlefile.Image.new, singlefile.Image.getWidth, hcl, hfl]
  have hy0 : (singlefile.taps (singlefile.Image.new 1 1) 0 0).y0 = -1 := by
    simp only [singlefile.taps, singlefile.Image.new, singlefile.Image.getHeight, hcl, hfl]
  have hget : (singlefile.Image.new 1 1).getPixel (-1) (-1) = none := by
    simp [singlefile.Image.getPixel, singlefile.Image.new]
  refine ⟨rfl, rfl, by simp [singlefile.Image.new], hcl, hx0, hy0, ?_, hget, ?_⟩
  · rw [hx0, hy0]
    simp [singlefile.Image.new]
  · unfold singlefile.bilinearInterpolate
    simp only [hx0, hy0, hget, Option.bind_eq_bind, Option.none_bind]


theorem singlefile_index_bounds (w h x y : Int) (hx0 : 0 ≤ x) (hxw : x < w) (hy0 : 0 ≤ y)
    (hyh : y < h) : 0 ≤ y * w + x ∧ y * w + x < w * h := by
  have hw : 0 ≤ w := by omega
  have h1 : y * w ≤ (h - 1) * w := Int.mul_le_mul_of_nonneg_right (by omega) hw
  have h2 : 0 ≤ y * w := Int.mul_nonneg hy0 hw
  have h3 : (h - 1) * w = w * h - w := by ring
  omega

theorem singlefile_index_injective (w x y u v : Int) (hx0 : 0 ≤ x) (hxw : x < w) (hu0 : 0 ≤ u)
    (huw : u < w) (h : v * w + u = y * w + x) : u = x ∧ v = y := by
  have hw : 0 ≤ w := by omega
  have hyv : v = y := by
    rcases lt_trichotomy v y with hlt | heq | hgt
    · have h5 : (v + 1) * w ≤ y * w := Int.mul_le_mul_of_nonneg_right (by omega) hw
      have h6 : (v + 1) * w = v * w + w := by ring
      omega
    · exact heq
    · have h5 : (y + 1) * w ≤ v * w := Int.mul_le_mul_of_nonneg_right (by omega) hw
      have h6 : (y + 1) * w = y * w + w := by ring
      omega
  subst hyv
  exact ⟨by omega, rfl⟩

/-- C19: in an image of the single-file program with `width ≥ 1`, `height ≥ 1`
and a buffer of `width * height` samples, the cell `(x, y)` inside the grid is
stored at index `y * width + x`, which is below `width * height` and differs
from the index of every other cell inside the grid; hence `setPixel(x, y, p)`
succeeds, after it `getPixel(x, y)` returns `p`, `getPixel` at every other cell
inside the grid returns what it returned before, and width and height are
unchanged. -/
theorem singlefile_image_storage (img : singlefile.Image) (hwf : img.WellFormed)
    (x y : Int) (hx0 : 0 ≤ x) (hxw : x < img.width) (hy0 : 0 ≤ y) (hyh : y < img.height)
    (p : singlefile.Pixel) :
    (0 ≤ y * img.width + x ∧ y * img.width + x < img.width * img.height) ∧
    (∀ u v, 0 ≤ u → u < img.width → 0 ≤ v → v < img.height →
      (v * img.width + u = y * img.width + x ↔ u = x ∧ v = y)) ∧
    ∃ img2, img.setPixel x y p = some img2 ∧
      img2.getPixel x y = some p ∧
      (∀ u v, 0 ≤ u → u < img.width → 0 ≤ v → v < img.height → ¬ (u = x ∧ v = y) →
        img2.getPixel u v = img.getPixel u v) ∧
      img2.getWidth = img.getWidth ∧ img2.getHeight = img.getHeight := by
  obtain ⟨hw1, hh1, hlen⟩ := hwf
  have hidx := singlefile_index_bounds img.width img.height x y hx0 hxw hy0 hyh
  have hlenI : (img.data.length : Int) = img.width * img.height := by
    rw [hlen]
    have : 0 ≤ img.width * img.height := Int.mul_nonneg (by omega) (by omega)
    omega
  have hinrange : 0 ≤ y * img.width + x ∧ y * img.width + x < (img.data.length : Int) := by
    rw [hlenI]; exact hidx
  refine ⟨hidx, ?_, ?_⟩
  · intro u v hu0 huw _ _
    constructor
    · intro h
      exact singlefile_index_injective img.width x y u v hx0 hxw hu0 huw h
    · rintro ⟨rfl, rfl⟩
      rfl
  · refine ⟨{ img with data := img.data.set (y * img.width + x).toNat p }, ?_, ?_, ?_, rfl, rfl⟩
    · simp only [singlefile.Image.setPixel]
      rw [if_pos hinrange]
    · simp only [singlefile.Image.getPixel, List.length_set]
      rw [if_pos hinrange]
      have hlt : (y * img.width + x).toNat < img.data.length := by omega
      simp [List.getElem?_set, hlt]
    · intro u v hu0 huw hv0 hvh hne
      have hidx2 := singlefile_index_bounds img.width img.height u v hu0 huw hv0 hvh
      have hneq : (y * img.width + x).toNat ≠ (v * img.width + u).toNat := by
        intro heq
        have : v * img.width + u = y * img.width + x := by omega
        exact hne (singlefile_index_injective img.width x y u v hx0 hxw hu0 huw this)
      simp only [singlefile.Image.getPixel, List.length_set, List.get?_eq_getElem?]
      rw [List.getElem?_set_ne hneq]

theorem sourceImage_wellFormed : singlefile.sourceImage.WellFormed := by
  refine ⟨by decide, by decide, ?_⟩
  simp [singlefile.sourceImage]

/-- C19 at a concrete input: the sample image of the single-file program, the
cell `(1, 2)` and the pixel `Pixel(7)`. -/
theorem singlefile_image_storage_witness :
    (0 ≤ 2 * singlefile.sourceImage.width + 1 ∧
      2 * singlefile.sourceImage.width + 1 <
        singlefile.sourceImage.width * singlefile.sourceImage.height) ∧
    (∀ u v, 0 ≤ u → u < singlefile.sourceImage.width → 0 ≤ v →
      v < singlefile.sourceImage.height →
      (v * singlefile.sourceImage.width + u = 2 * singlefile.sourceImage.width + 1 ↔
        u = 1 ∧ v = 2)) ∧
    ∃ img2, singlefile.sourceImage.setPixel 1 2 (singlefile.Pixel.gray 7) = some img2 ∧
      img2.getPixel 1 2 = some (singlefile.Pixel.gray 7) ∧
      (∀ u v, 0 ≤ u → u < singlefile.sourceImage.width → 0 ≤ v →
        v < singlefile.sourceImage.height → ¬ (u = 1 ∧ v = 2) →
        img2.getPixel u v = singlefile.sourceImage.getPixel u v) ∧
      img2.getWidth = singlefile.sourceImage.getWidth ∧
      img2.getHeight = singlefile.sourceImage.getHeight :=
  singlefile_image_storage singlefile.sourceImage sourceImage_wellFormed 1 2
    (by decide) (by decide) (by decide) (by decide) (singlefile.Pixel.gray 7)


theorem foldl_setPixel_cells (f : Int → Int → Pixel) (cells : List (Int × Int)) (dst : Image)
    (hwf : dst.WellFormed) :
    (cells.foldl (fun (d : Image) (c : Int × Int) => d.setPixel c.2 c.1 (f c.2 c.1))
      dst).WellFormed ∧
    (cells.foldl (fun (d : Image) (c : Int × Int) => d.setPixel c.2 c.1 (f c.2 c.1))
      dst).width = dst.width ∧
    (cells.foldl (fun (d : Image) (c : Int × Int) => d.setPixel c.2 c.1 (f c.2 c.1))
      dst).height = dst.height ∧
    ∀ u v, (cells.foldl (fun (d : Image) (c : Int × Int) => d.setPixel c.2 c.1 (f c.2 c.1))
        dst).getPixel u v =
      if (v, u) ∈ cells ∧ dst.inBounds u v then f u v else dst.getPixel u v := by
  induction cells generalizing dst with
  | nil =>
    refine ⟨hwf, rfl, rfl, ?_⟩
    intro u v
    simp
  | cons c rest ih =>
    obtain ⟨rwf, rw_, rh, rget⟩ := ih (dst.setPixel c.2 c.1 (f c.2 c.1))
      (setPixel_wellFormed dst c.2 c.1 _ hwf)
    simp only [List.foldl_cons]
    refine ⟨rwf, by rw [rw_, setPixel_width], by rw [rh, setPixel_height], ?_⟩
    intro u v
    rw [rget u v, getPixel_setPixel dst c.2 c.1 _ u v hwf]
    simp only [setPixel_inBounds, List.mem_cons]
    by_cases hrest : (v, u) ∈ rest ∧ dst.inBounds u v
    · rw [if_pos hrest, if_pos ⟨Or.inr hrest.1, hrest.2⟩]
    · rw [if_neg hrest]
      by_cases hc : u = c.2 ∧ v = c.1 ∧ dst.inBounds c.2 c.1
      · obtain ⟨hu, hv, hb⟩ := hc
        subst hu hv
        rw [if_pos ⟨rfl, rfl, hb⟩, if_pos ⟨Or.inl rfl, hb⟩]
      · rw [if_neg hc, if_neg]
        rintro ⟨hmem | hmem, hb⟩
        · have hcu : u = c.2 := by rw [← hmem]
          have hcv : v = c.1 := by rw [← hmem]
          subst hcu hcv
          exact hc ⟨rfl, rfl, hb⟩
        · exact hrest ⟨hmem, hb⟩

theorem mem_indexSpace (new_height new_width j i : Int) :
    (j, i) ∈ indexSpace new_height new_width ↔
      0 ≤ j ∧ j < new_height ∧ 0 ≤ i ∧ i < new_width := by
  unfold indexSpace
  simp only [List.mem_flatMap, List.mem_range, List.mem_map, Prod.mk.injEq]
  constructor
  · rintro ⟨a, ha, b, hb, rfl, rfl⟩
    omega
  · rintro ⟨hj0, hj, hi0, hi⟩
    exact ⟨j.toNat, by omega, i.toNat, by omega, by omega, by omega⟩

theorem image_ext_of_getPixel (a b : Image) (ha : a.WellFormed) (hb : b.WellFormed)
    (hw : a.width = b.width) (hh : a.height = b.height)
    (hget : ∀ u v, a.inBounds u v → a.getPixel u v = b.getPixel u v) : a = b := by
  obtain ⟨haw, hah, halen⟩ := ha
  obtain ⟨hbw, hbh, hblen⟩ := hb
  have hlen : a.data.length = b.data.length := by rw [halen, hblen, hw, hh]
  have hdata : a.data = b.data := by
    apply List.ext_getElem hlen
    intro k hk1 hk2
    have hkI : (k : Int) < a.width * a.height := by
      rw [halen] at hk1
      omega
    have hwpos : 0 < a.width := by
      rcases eq_or_lt_of_le haw with h0 | hpos
      · rw [← h0] at hkI
        simp at hkI
        omega
      · exact hpos
    have hx0 : 0 ≤ (k : Int) % a.width := Int.emod_nonneg _ (by omega)
    have hxw : (k : Int) % a.width < a.width := Int.emod_lt_of_pos _ hwpos
    have hy0 : 0 ≤ (k : Int) / a.width := Int.ediv_nonneg (by omega) (by omega)
    have hyh : (k : Int) / a.width < a.height :=
      Int.ediv_lt_of_lt_mul hwpos (by rw [mul_comm]; exact hkI)
    have hdecomp : (k : Int) / a.width * a.width + (k : Int) % a.width = (k : Int) :=
      Int.ediv_add_emod' _ _
    have hbnd : a.inBounds ((k : Int) % a.width) ((k : Int) / a.width) := ⟨hx0, hxw, hy0, hyh⟩
    have hbnd2 : b.inBounds ((k : Int) % a.width) ((k : Int) / a.width) := by
      unfold Image.inBounds
      rw [← hw, ← hh]
      exact hbnd
    have hia : a.index ((k : Int) % a.width) ((k : Int) / a.width) = k := by
      unfold Image.index
      rw [hdecomp]
      simp
    have hib : b.index ((k : Int) % a.width) ((k : Int) / a.width) = k := by
      unfold Image.index
      rw [← hw, hdecomp]
      simp
    have h := hget _ _ hbnd
    unfold Image.getPixel at h
    rw [if_pos hbnd, if_pos hbnd2, hia, hib] at h
    simpa [List.getD_eq_getElem?_getD, List.getElem?_eq_getElem hk1,
      List.getElem?_eq_getElem hk2] using h
  cases a
  cases b
  simp only [Image.mk.injEq]
  exact ⟨hh, hw, hdata⟩

theorem resize_openmp_scheduled_eq (src : Image) (new_height new_width : Int)
    (hH : 0 ≤ new_height) (hW : 0 ≤ new_width) (schedule : List (Int × Int))
    (hperm : ∀ c, c ∈ schedule ↔ c ∈ indexSpace new_height new_width) :
    resize_openmp_scheduled src new_height new_width schedule =
      BilinearInterpolation.resize_openmp src new_height new_width := by
  obtain ⟨swf, sw, sh, sget⟩ := foldl_setPixel_cells
    (inlinePixel src ((src.getWidth : ℚ) / (new_width : ℚ))
      ((src.getHeight : ℚ) / (new_height : ℚ)))
    schedule (Image.new new_height new_width) (new_wellFormed _ _ hH hW)
  obtain ⟨owf, ow, oh, oget⟩ := resize_openmp_cells src new_height new_width hH hW
  apply image_ext_of_getPixel _ _ swf owf
  · rw [ow]; exact sw
  · rw [oh]; exact sh
  · intro u v hb
    have hb2 : (Image.new new_height new_width).inBounds u v := by
      obtain ⟨b1, b2, b3, b4⟩ := hb
      exact ⟨b1, lt_of_lt_of_eq b2 sw, b3, lt_of_lt_of_eq b4 sh⟩
    obtain ⟨hu0, hu, hv0, hv⟩ := (new_inBounds _ _ _ _).mp hb2
    have hmem : (v, u) ∈ schedule :=
      (hperm (v, u)).mpr ((mem_indexSpace _ _ _ _).mpr ⟨hv0, hv, hu0, hu⟩)
    have h1 := sget u v
    rw [if_pos ⟨hmem, hb2⟩] at h1
    rw [oget u v hu0 hu hv0 hv]
    exact h1

/-- C12: executing the iterations of the collapsed loop of `resize_openmp` in
any order, that is along any permutation of the index space
`{0..new_height-1} x {0..new_width-1}`, yields the same destination grid as
visiting them in row-major order; each cell holds the inline kernel's value for
the source and its own `(i, j)`. -/
theorem resize_openmp_schedule_invariance (src : Image) (new_height new_width : Int)
    (hH : 1 ≤ new_height) (hW : 1 ≤ new_width) (schedule : List (Int × Int))
    (hperm : schedule.Perm (indexSpace new_height new_width)) :
    resize_openmp_scheduled src new_height new_width schedule =
      BilinearInterpolation.resize_openmp src new_height new_width ∧
    resize_openmp_scheduled src new_height new_width (indexSpace new_height new_width) =
      BilinearInterpolation.resize_openmp src new_height new_width ∧
    ∀ i j, 0 ≤ i → i < new_width → 0 ≤ j → j < new_height →
      (resize_openmp_scheduled src new_height new_width schedule).getPixel i j =
        inlinePixel src ((src.getWidth : ℚ) / (new_width : ℚ))
          ((src.getHeight : ℚ) / (new_height : ℚ)) i j := by
  have h1 := resize_openmp_scheduled_eq src new_height new_width (by omega) (by omega) schedule
    (fun c => hperm.mem_iff)
  have h2 := resize_openmp_scheduled_eq src new_height new_width (by omega) (by omega)
    (indexSpace new_height new_width) (fun _ => Iff.rfl)
  refine ⟨h1, h2, ?_⟩
  intro i j hi0 hi hj0 hj
  rw [h1]
  exact (resize_openmp_cells src new_height new_width (by omega) (by omega)).2.2.2 i j hi0 hi hj0 hj

/-- C12 at a concrete input: the sample grid resized to `2 x 2` with the four
iterations run in reverse row-major order. -/
theorem resize_openmp_schedule_invariance_witness :
    resize_openmp_scheduled grid4 2 2 [(1, 1), (1, 0), (0, 1), (0, 0)] =
      BilinearInterpolation.resize_openmp grid4 2 2 :=
  (resize_openmp_schedule_invariance grid4 2 2 (by decide) (by decide)
    [(1, 1), (1, 0), (0, 1), (0, 0)] (by decide)).1


/-- C21: for a reported hardware concurrency (a non-negative count) the number
of tiles of `resize_threading` is that value when it is non-zero and 4 when it
is zero; hence it is at least 1 and the division `new_height / num_threads`
that computes `tile_height` has a non-zero divisor. -/
theorem worker_count (hardware_concurrency : Int) (h : 0 ≤ hardware_concurrency) :
    (hardware_concurrency ≠ 0 → numThreads hardware_concurrency = hardware_concurrency) ∧
    (hardware_concurrency = 0 → numThreads hardware_concurrency = 4) ∧
    1 ≤ numThreads hardware_concurrency ∧
    numThreads hardware_concurrency ≠ 0 ∧
    (∀ (src : Image) (new_height new_width : Int),
      BilinearInterpolation.resize_threading hardware_concurrency src new_height new_width =
        resizeTiles src new_height new_width (numThreads hardware_concurrency)) ∧
    (∀ new_height : Int, tileHeight new_height (numThreads hardware_concurrency) =
      Int.tdiv new_height (numThreads hardware_concurrency)) := by
  have hpos := numThreads_pos hardware_concurrency h
  refine ⟨?_, ?_, hpos, by omega, fun _ _ _ => rfl, fun _ => rfl⟩
  · intro hne
    unfold numThreads
    rw [if_neg hne]
  · intro h0
    unfold numThreads
    rw [if_pos h0]

/-- C21 at a concrete input: the hardware concurrency is reported as zero. -/
theorem worker_count_witness :
    ((0 : Int) ≠ 0 → numThreads 0 = 0) ∧
    ((0 : Int) = 0 → numThreads 0 = 4) ∧
    1 ≤ numThreads 0 ∧
    numThreads 0 ≠ 0 ∧
    (∀ (src : Image) (new_height new_width : Int),
      BilinearInterpolation.resize_threading 0 src new_height new_width =
        resizeTiles src new_height new_width (numThreads 0)) ∧
    (∀ new_height : Int, tileHeight new_height (numThreads 0) =
      Int.tdiv new_height (numThreads 0)) :=
  worker_count 0 (by decide)

/-- C22: for `minVal ≤ maxVal` the result of `clamp(value, minVal, maxVal)` lies
in `[minVal, maxVal]`, equals `value` when `minVal ≤ value ≤ maxVal`, equals
`minVal` when `value < minVal` and `maxVal` when `value > maxVal`, and clamping
twice is clamping once; `clamp(150, 0, 100) = 100`, `clamp(-10, 0, 100) = 0`,
`clamp(50, 0, 100) = 50`. -/
theorem clamp_limits_to_range (value minVal maxVal : ℚ) (hrange : minVal ≤ maxVal) :
    (minVal ≤ singlefile.clamp value minVal maxVal ∧
      singlefile.clamp value minVal maxVal ≤ maxVal) ∧
    (minVal ≤ value → value ≤ maxVal → singlefile.clamp value minVal maxVal = value) ∧
    (value < minVal → singlefile.clamp value minVal maxVal = minVal) ∧
    (value > maxVal → singlefile.clamp value minVal maxVal = maxVal) ∧
    singlefile.clamp (singlefile.clamp value minVal maxVal) minVal maxVal =
      singlefile.clamp value minVal maxVal ∧
    singlefile.clamp 150 0 100 = 100 ∧
    singlefile.clamp (-10) 0 100 = 0 ∧
    singlefile.clamp 50 0 100 = 50 := by
  refine ⟨?_, ?_, ?_, ?_, ?_, ?_, ?_, ?_⟩
  · unfold singlefile.clamp
    split_ifs with h1 h2
    · exact ⟨le_rfl, hrange⟩
    · exact ⟨hrange, le_rfl⟩
    · exact ⟨not_lt.mp h1, not_lt.mp h2⟩
  · intro hlo hhi
    unfold singlefile.clamp
    rw [if_neg (not_lt.mpr hlo), if_neg (not_lt.mpr hhi)]
  · intro hlt
    unfold singlefile.clamp
    rw [if_pos hlt]
  · intro hgt
    unfold singlefile.clamp
    rw [if_neg (not_lt.mpr (le_trans hrange (le_of_lt hgt))), if_pos hgt]
  · unfold singlefile.clamp
    split_ifs with h1 h2 h3 h4 h5 h6 <;> first | rfl | (exfalso; linarith)
  · unfold singlefile.clamp
    norm_num
  · unfold singlefile.clamp
    norm_num
  · unfold singlefile.clamp
    norm_num

/-- C22 at a concrete input: `clamp(150, 0, 100)`. -/
theorem clamp_limits_to_range_witness :
    ((0 : ℚ) ≤ singlefile.clamp 150 0 100 ∧ singlefile.clamp 150 0 100 ≤ 100) ∧
    singlefile.clamp 150 0 100 = 100 :=
  ⟨(clamp_limits_to_range 150 0 100 (by norm_num)).1,
    (clamp_limits_to_range 150 0 100 (by norm_num)).2.2.2.1 (by norm_num)⟩


/-- C24: for new dimensions at least 1 and every thread count `N ≥ 1`, the grid
produced by running `resizeThreadTile` over the `N` tiles of `resize_threading`
equals, at every destination cell and as a whole, the grid produced by the
per-pixel loop of `resize_openmp`. -/
theorem parallel_strategies_agree (src : Image) (new_height new_width num_threads : Int)
    (hH : 1 ≤ new_height) (hW : 1 ≤ new_width) (hN : 1 ≤ num_threads) :
    (∀ i j, 0 ≤ i → i < new_width → 0 ≤ j → j < new_height →
      (resizeTiles src new_height new_width num_threads).getPixel i j =
        (BilinearInterpolation.resize_openmp src new_height new_width).getPixel i j) ∧
    resizeTiles src new_height new_width num_threads =
      BilinearInterpolation.resize_openmp src new_height new_width ∧
    (BilinearInterpolation.resize_threading num_threads src new_height new_width =
      BilinearInterpolation.resize_openmp src new_height new_width) := by
  obtain ⟨twf, tw, th, tget⟩ :=
    resizeTiles_cells src new_height new_width num_threads (by omega) (by omega) hN
  obtain ⟨owf, ow, oh, oget⟩ := resize_openmp_cells src new_height new_width (by omega) (by omega)
  have hcell : ∀ i j, 0 ≤ i → i < new_width → 0 ≤ j → j < new_height →
      (resizeTiles src new_height new_width num_threads).getPixel i j =
        (BilinearInterpolation.resize_openmp src new_height new_width).getPixel i j := by
    intro i j hi0 hi hj0 hj
    rw [tget i j hi0 hi hj0 hj, oget i j hi0 hi hj0 hj]
  have heq : resizeTiles src new_height new_width num_threads =
      BilinearInterpolation.resize_openmp src new_height new_width := by
    apply image_ext_of_getPixel _ _ twf owf (by rw [tw, ow]) (by rw [th, oh])
    rintro u v ⟨b1, b2, b3, b4⟩
    exact hcell u v b1 (lt_of_lt_of_eq b2 tw) b3 (lt_of_lt_of_eq b4 th)
  refine ⟨hcell, heq, ?_⟩
  unfold BilinearInterpolation.resize_threading
  have hnt : numThreads num_threads = num_threads := by
    unfold numThreads
    rw [if_neg (by omega)]
  rw [hnt]
  exact heq

/-- C24 at a concrete input: the sample grid resized to width 6 and height 3
with 4 threads. -/
theorem parallel_strategies_agree_witness :
    resizeTiles grid4 3 6 4 = BilinearInterpolation.resize_openmp grid4 3 6 :=
  (parallel_strategies_agree grid4 3 6 4 (by decide) (by decide) (by decide)).2.1


end interpolation
